import Mathlib

/-!
# Eyevinn/gosrt, pubsub.go: the publish/subscribe fan-out

A shallow embedding of src/pubsub.go. The Go program is concurrent: one
broadcast goroutine, any number of Publish and Subscribe calls. It is
modelled as a transition system whose state holds the fields of the pubSub
struct, the control point of the broadcast goroutine and the control point and
locals of every Publish and Subscribe call. One Action is one atomic step of
one goroutine; the scheduler and the connections (what ReadPacket and
WritePacket return) are the environment, which picks the actions. A step that
is not enabled (a blocked goroutine) leaves the state as it is.
-/

namespace srt

/-! ## Values that pubsub.go takes from the rest of the package -/

/-- Go error values that reach pubsub.go: the package sentinel EOF, the error
built by fmt.Errorf("The provided connection is not a SRT connection"), and any
other error of the transport. A nil error is Option.none. -/
inductive Err where
  | EOF
  | notSRT
  | transport (code : Nat)
  deriving DecidableEq, Repr

/-- Modelled from the spec: the packet type is declared outside pubsub.go. A
packet is opaque content; Clone produces an independent copy, told apart from
its source by the count of copies made on the way. -/
structure packet where
  payload : Nat
  copy : Nat
  deriving DecidableEq, Repr

/-- Modelled from the spec: Packet.Clone() yields an independent packet with
the same content. -/
def packet.Clone (p : packet) : packet :=
  { p with copy := p.copy + 1 }

/-- Modelled from the spec: the concrete transport connection (srtConn is
declared outside pubsub.go); pubsub.go uses its SocketId, ReadPacket and
WritePacket only. What the last two return is chosen by the environment. -/
structure srtConn where
  socketId : Nat
  deriving DecidableEq, Repr

/-- A value of the interface type Conn: the nil interface value, the concrete
transport connection, or a connection of any other dynamic type, of which
pubsub.go uses the SocketId only. -/
inductive Conn where
  | nil
  | srt (conn : srtConn)
  | other (socketId : Nat)
  deriving DecidableEq, Repr

/-- The method call c.SocketId(): the identity of the connection, or none when
c is the nil interface value and the call panics (nil dereference). -/
def Conn.SocketId : Conn → Option Nat
  | .nil => none
  | .srt conn => some conn.socketId
  | .other socketId => some socketId

/-- The type assertion c.(*srtConn): the connection and ok. On the nil
interface value the assertion fails, as on any other dynamic type. -/
def Conn.asSrt : Conn → Option srtConn
  | .nil => none
  | .srt conn => some conn
  | .other _ => none

/-- What one call of ReadPacket returned: a packet, or a non-nil error. -/
inductive ReadResult where
  | ok (p : packet)
  | err (e : Err)
  deriving DecidableEq, Repr

/-- The three diagnostics pubsub.go logs. -/
inductive Diag where
  | exitingBroadcast
  | targetFull
  | incomingFull
  deriving DecidableEq, Repr

/-! ## The pubSub struct and the goroutines -/

/-- Capacity of the incoming channel and of every subscriber channel
(make(chan *packet, 1024)). -/
def chanCap : Nat := 1024

/-- A non-blocking channel send, select { case c <- p: default: }: the new
buffer, or none when the buffer is full (the default branch). -/
def trySend (c : List packet) (p : packet) : Option (List packet) :=
  if c.length < chanCap then some (c ++ [p]) else none

/-- The registry assignment pb.listeners[socketId] = l. The map is kept as
its list of entries (socketId, channel). -/
def mapSet (m : List (Nat × Nat)) (socketId l : Nat) : List (Nat × Nat) :=
  (socketId, l) :: m.filter (fun e => e.1 ≠ socketId)

/-- The registry removal delete(pb.listeners, socketId). -/
def mapDelete (m : List (Nat × Nat)) (socketId : Nat) : List (Nat × Nat) :=
  m.filter (fun e => e.1 ≠ socketId)

/-- The fields of struct pubSub. A subscriber channel is named by the number of
the Subscribe call that made it; its buffer is in World.chans. abort is true
once the channel is closed, lock is true while the mutex is held. -/
structure pubSub where
  incoming : List packet
  abort : Bool
  lock : Bool
  listeners : List (Nat × Nat)
  deriving DecidableEq, Repr

/-- Control points of one Publish call (lines 61 to 85). -/
inductive PublishPc where
  | reading
  | offering (p : packet)
  | closing (err : Err)
  | returned (err : Option Err)
  | panicked
  deriving DecidableEq, Repr

/-- One Publish call: its argument, its control point and, as history, what
its ReadPacket calls returned so far. -/
structure PublishCall where
  c : Conn
  pc : PublishPc
  reads : List ReadResult
  deriving DecidableEq, Repr

/-- Control points of one Subscribe call (lines 87 to 117). unwinding is the
deferred function still to run with the value being returned; panicked is the
call ended by the panic of c.SocketId() on the nil interface value, before
anything was registered or deferred. -/
inductive SubscribePc where
  | registering
  | selecting
  | writing (p : packet)
  | unwinding (ret : Option Err)
  | returned (ret : Option Err)
  | panicked
  deriving DecidableEq, Repr

/-- One Subscribe call: its argument, the local socketId, its control point
and, as history, the packets passed to WritePacket with what each call
returned, and how many packets the broadcast loop had taken under the lock when
the call registered. -/
structure SubscribeCall where
  c : Conn
  socketId : Nat
  pc : SubscribePc
  writes : List (packet × Option Err)
  joined : Nat
  deriving DecidableEq, Repr

/-- Control points of the broadcast goroutine (lines 36 to 59). ranging holds
the packet and the registry entries the for-range has still to visit. -/
inductive BroadcastPc where
  | selecting
  | locking (p : packet)
  | ranging (p : packet) (todo : List (Nat × Nat))
  | exited
  deriving DecidableEq, Repr

/-- The whole program state. fanned, logs and closes are history: the packets
the broadcast loop has taken under the lock, the diagnostics logged, and how
often close(pb.abort) was executed. -/
structure World where
  pb : pubSub
  chans : Nat → List packet
  pump : BroadcastPc
  pubs : Nat → Option PublishCall
  subs : Nat → Option SubscribeCall
  fanned : List packet
  logs : List Diag
  closes : Nat

/-- NewPubSub: empty incoming channel, empty registry, open abort channel, and
the broadcast goroutine started. -/
def NewPubSub : World where
  pb := { incoming := [], abort := false, lock := false, listeners := [] }
  chans := fun _ => []
  pump := .selecting
  pubs := fun _ => none
  subs := fun _ => none
  fanned := []
  logs := []
  closes := 0

/-- The state with the Publish call j replaced. -/
def World.setPub (s : World) (j : Nat) (call : PublishCall) : World :=
  { s with pubs := Function.update s.pubs j (some call) }

/-- The state with the Subscribe call i replaced. -/
def World.setSub (s : World) (i : Nat) (call : SubscribeCall) : World :=
  { s with subs := Function.update s.subs i (some call) }

/-! ### Publish -/

/-- Entry of Publish(c), lines 62 to 67: the type assertion; on a mismatch
the call returns the error at once. j numbers the call. -/
def Publish.call (s : World) (j : Nat) (c : Conn) : World :=
  match s.pubs j with
  | some _ => s
  | none =>
    match c.asSrt with
    | none => s.setPub j { c := c, pc := .returned (some .notSRT), reads := [] }
    | some _ => s.setPub j { c := c, pc := .reading, reads := [] }

/-- Lines 70 to 73: conn.ReadPacket() returns res; an error breaks the loop. -/
def Publish.read (s : World) (j : Nat) (res : ReadResult) : World :=
  match s.pubs j with
  | none => s
  | some call =>
    match call.pc with
    | .reading =>
      match res with
      | .ok p => s.setPub j { call with pc := .offering p, reads := call.reads ++ [res] }
      | .err e => s.setPub j { call with pc := .closing e, reads := call.reads ++ [res] }
    | _ => s

/-- Lines 75 to 79: the non-blocking send into pb.incoming. -/
def Publish.offer (s : World) (j : Nat) : World :=
  match s.pubs j with
  | none => s
  | some call =>
    match call.pc with
    | .offering p =>
      match trySend s.pb.incoming p with
      | some q =>
        { s with pb := { s.pb with incoming := q },
                 pubs := Function.update s.pubs j (some { call with pc := .reading }) }
      | none =>
        { s with logs := s.logs ++ [Diag.incomingFull],
                 pubs := Function.update s.pubs j (some { call with pc := .reading }) }
    | _ => s

/-- Lines 82 to 84: close(pb.abort) and return err. Closing a closed channel
panics. -/
def Publish.close (s : World) (j : Nat) : World :=
  match s.pubs j with
  | none => s
  | some call =>
    match call.pc with
    | .closing e =>
      if s.pb.abort then
        { s with closes := s.closes + 1,
                 pubs := Function.update s.pubs j (some { call with pc := .panicked }) }
      else
        { s with pb := { s.pb with abort := true }, closes := s.closes + 1,
                 pubs := Function.update s.pubs j
                   (some { call with pc := .returned (some e) }) }
    | _ => s

/-! ### Subscribe -/

/-- Entry of Subscribe(c), lines 88 to 93: the channel l is made (it is
World.chans i), then c.SocketId() is called, which panics on the nil interface
value, and only then comes the type assertion. -/
def Subscribe.call (s : World) (i : Nat) (c : Conn) : World :=
  match s.subs i with
  | some _ => s
  | none =>
    match c.SocketId with
    | none =>
      s.setSub i { c := c, socketId := 0, pc := .panicked, writes := [], joined := 0 }
    | some socketId =>
      match c.asSrt with
      | none =>
        s.setSub i { c := c, socketId := socketId, pc := .returned (some .notSRT),
                     writes := [], joined := 0 }
      | some _ =>
        s.setSub i { c := c, socketId := socketId, pc := .registering,
                     writes := [], joined := 0 }

/-- Lines 95 to 97: under the lock, pb.listeners[socketId] = l. -/
def Subscribe.register (s : World) (i : Nat) : World :=
  match s.subs i with
  | none => s
  | some call =>
    match call.pc with
    | .registering =>
      if s.pb.lock then s
      else
        { s with pb := { s.pb with listeners := mapSet s.pb.listeners call.socketId i },
                 subs := Function.update s.subs i
                   (some { call with pc := .selecting, joined := s.fanned.length }) }
    | _ => s

/-- Line 107: the select takes the closed abort channel; return EOF. -/
def Subscribe.onAbort (s : World) (i : Nat) : World :=
  match s.subs i with
  | none => s
  | some call =>
    match call.pc with
    | .selecting =>
      if s.pb.abort then s.setSub i { call with pc := .unwinding (some .EOF) } else s
    | _ => s

/-- Line 109: the select takes a packet from l. -/
def Subscribe.recv (s : World) (i : Nat) : World :=
  match s.subs i with
  | none => s
  | some call =>
    match call.pc with
    | .selecting =>
      match s.chans i with
      | [] => s
      | p :: rest =>
        { s with chans := Function.update s.chans i rest,
                 subs := Function.update s.subs i (some { call with pc := .writing p }) }
    | _ => s

/-- Lines 110 to 112: conn.WritePacket(p) returns res; an error is returned. -/
def Subscribe.write (s : World) (i : Nat) (res : Option Err) : World :=
  match s.subs i with
  | none => s
  | some call =>
    match call.pc with
    | .writing p =>
      match res with
      | none => s.setSub i { call with pc := .selecting, writes := call.writes ++ [(p, res)] }
      | some e =>
        s.setSub i { call with pc := .unwinding (some e), writes := call.writes ++ [(p, res)] }
    | _ => s

/-- Lines 99 to 103, the deferred function: under the lock,
delete(pb.listeners, socketId); then the call returns. -/
def Subscribe.release (s : World) (i : Nat) : World :=
  match s.subs i with
  | none => s
  | some call =>
    match call.pc with
    | .unwinding ret =>
      if s.pb.lock then s
      else
        { s with pb := { s.pb with listeners := mapDelete s.pb.listeners call.socketId },
                 subs := Function.update s.subs i (some { call with pc := .returned ret }) }
    | _ => s

/-! ### broadcast -/

/-- Line 43: the select takes the closed abort channel; the loop exits and the
deferred log runs. -/
def broadcast.onAbort (s : World) : World :=
  match s.pump with
  | .selecting =>
    if s.pb.abort then { s with pump := .exited, logs := s.logs ++ [Diag.exitingBroadcast] }
    else s
  | _ => s

/-- Line 45: the select takes a packet from pb.incoming. -/
def broadcast.recv (s : World) : World :=
  match s.pump with
  | .selecting =>
    match s.pb.incoming with
    | [] => s
    | p :: rest => { s with pb := { s.pb with incoming := rest }, pump := .locking p }
  | _ => s

/-- Lines 46 and 47: pb.lock.Lock() and the start of the for-range over
pb.listeners. -/
def broadcast.lock (s : World) : World :=
  match s.pump with
  | .locking p =>
    if s.pb.lock then s
    else
      { s with pb := { s.pb with lock := true }, pump := .ranging p s.pb.listeners,
               fanned := s.fanned ++ [p] }
  | _ => s

/-- Lines 48 to 54, one iteration of the for-range, on the entry
(socketId, l) that the map iteration yields next: the clone is sent without
blocking. -/
def broadcast.offer (s : World) (socketId l : Nat) : World :=
  match s.pump with
  | .ranging p todo =>
    if (socketId, l) ∈ todo then
      match trySend (s.chans l) p.Clone with
      | some q =>
        { s with chans := Function.update s.chans l q,
                 pump := .ranging p (todo.erase (socketId, l)) }
      | none =>
        { s with logs := s.logs ++ [Diag.targetFull],
                 pump := .ranging p (todo.erase (socketId, l)) }
    else s
  | _ => s

/-- Line 56: the for-range is over; pb.lock.Unlock(). -/
def broadcast.unlock (s : World) : World :=
  match s.pump with
  | .ranging _ [] => { s with pb := { s.pb with lock := false }, pump := .selecting }
  | _ => s

/-! ## Executions -/

/-- One atomic step of one goroutine, with what the environment decides. -/
inductive Action where
  | publish (j : Nat) (c : Conn)
  | pubRead (j : Nat) (res : ReadResult)
  | pubOffer (j : Nat)
  | pubClose (j : Nat)
  | subscribe (i : Nat) (c : Conn)
  | subRegister (i : Nat)
  | subAbort (i : Nat)
  | subRecv (i : Nat)
  | subWrite (i : Nat) (res : Option Err)
  | subRelease (i : Nat)
  | pumpAbort
  | pumpRecv
  | pumpLock
  | pumpOffer (socketId l : Nat)
  | pumpUnlock
  deriving DecidableEq, Repr

/-- The state after one action. An action that is not enabled in s (its
goroutine is elsewhere, or blocked on a channel or on the lock) leaves s as it
is. -/
def step (s : World) : Action → World
  | .publish j c => Publish.call s j c
  | .pubRead j res => Publish.read s j res
  | .pubOffer j => Publish.offer s j
  | .pubClose j => Publish.close s j
  | .subscribe i c => Subscribe.call s i c
  | .subRegister i => Subscribe.register s i
  | .subAbort i => Subscribe.onAbort s i
  | .subRecv i => Subscribe.recv s i
  | .subWrite i res => Subscribe.write s i res
  | .subRelease i => Subscribe.release s i
  | .pumpAbort => broadcast.onAbort s
  | .pumpRecv => broadcast.recv s
  | .pumpLock => broadcast.lock s
  | .pumpOffer socketId l => broadcast.offer s socketId l
  | .pumpUnlock => broadcast.unlock s

/-- The state after a schedule. -/
def exec (s : World) (acts : List Action) : World :=
  acts.foldl step s

/-- The states of the program: those some schedule reaches from NewPubSub. -/
def Reachable (s : World) : Prop :=
  ∃ acts, s = exec NewPubSub acts

/-! ## Invariants (definitions) -/

/-- The subscribe call is between its registration and its return. -/
def SubscribePc.registered : SubscribePc → Bool
  | .selecting => true
  | .writing _ => true
  | .unwinding _ => true
  | _ => false

/-- The registry invariant: every entry belongs to the Subscribe call that
made its channel, which is registered and has not returned; socketIds occur
once; the lock is held exactly while the broadcast loop ranges over the
registry, over entries that are in it; no channel holds more than its
capacity. -/
structure Inv (s : World) : Prop where
  owner : ∀ k l, (k, l) ∈ s.pb.listeners →
    ∃ call, s.subs l = some call ∧ call.socketId = k ∧ call.pc.registered = true
  keys : (s.pb.listeners.map Prod.fst).Nodup
  lockPump : s.pb.lock = true ↔ ∃ p todo, s.pump = .ranging p todo
  todo : ∀ p todo, s.pump = .ranging p todo → todo.Sublist s.pb.listeners
  chanBound : ∀ l, (s.chans l).length ≤ chanCap
  inBound : s.pb.incoming.length ≤ chanCap

/-- Publish actions. -/
def Action.isPub : Action → Bool
  | .publish _ _ => true
  | .pubRead _ _ => true
  | .pubOffer _ => true
  | .pubClose _ => true
  | _ => false

/-- Subscribe actions. -/
def Action.isSub : Action → Bool
  | .subscribe _ _ => true
  | .subRegister _ => true
  | .subAbort _ => true
  | .subRecv _ => true
  | .subWrite _ _ => true
  | .subRelease _ => true
  | _ => false

/-- What holds of a Publish call at each control point: the ReadPacket history
is a run of packets, ended by the error once the loop is left. -/
def PublishCall.wf (abort : Bool) (call : PublishCall) : Prop :=
  match call.c.asSrt with
  | none => call.pc = .returned (some .notSRT) ∧ call.reads = []
  | some _ =>
    match call.pc with
    | .reading => ∃ ps : List packet, call.reads = ps.map .ok
    | .offering p => ∃ ps : List packet, call.reads = ps.map .ok ++ [.ok p]
    | .closing e => ∃ ps : List packet, call.reads = ps.map .ok ++ [.err e]
    | .returned r => ∃ (ps : List packet) (e : Err),
        call.reads = ps.map .ok ++ [.err e] ∧ r = some e ∧ abort = true
    | .panicked => ∃ (ps : List packet) (e : Err),
        call.reads = ps.map .ok ++ [.err e] ∧ abort = true

/-- Every Publish call of the state is well formed. -/
def PubOk (s : World) : Prop :=
  ∀ j call, s.pubs j = some call → call.wf s.pb.abort

/-- How a Subscribe call may end, given the WritePacket history: with EOF taken
from the closed abort channel after writes that all succeeded, or with the
error of the last write, the only one that failed. -/
def Subscribe.Outcome (abort : Bool) (writes : List (packet × Option Err))
    (r : Option Err) : Prop :=
  (r = some .EOF ∧ abort = true ∧ ∀ w ∈ writes, w.2 = none) ∨
  (∃ pre p e, writes = pre ++ [(p, some e)] ∧ (∀ w ∈ pre, w.2 = none) ∧ r = some e)

/-- What holds of a Subscribe call at each control point. -/
def SubscribeCall.wf (abort : Bool) (call : SubscribeCall) : Prop :=
  (∀ k, call.c.SocketId = some k → call.socketId = k) ∧
  match call.c.asSrt with
  | none => (call.pc = .returned (some .notSRT) ∨ call.pc = .panicked) ∧ call.writes = []
  | some _ =>
    match call.pc with
    | .registering => call.writes = []
    | .selecting => ∀ w ∈ call.writes, w.2 = none
    | .writing _ => ∀ w ∈ call.writes, w.2 = none
    | .unwinding r => Subscribe.Outcome abort call.writes r
    | .returned r => Subscribe.Outcome abort call.writes r
    | .panicked => False

/-- Every Subscribe call of the state is well formed. -/
def SubOk (s : World) : Prop :=
  ∀ i call, s.subs i = some call → call.wf s.pb.abort

/-- The steps of a Publish call numbered j that runs to the end of a stream
that yields the packets ps and then the error e: each packet is read and
offered, then the error is read and the abort channel closed. -/
def Publish.schedule (j : Nat) (ps : List packet) (e : Err) : List Action :=
  ps.flatMap (fun p => [Action.pubRead j (.ok p), Action.pubOffer j]) ++
    [Action.pubRead j (.err e), Action.pubClose j]

/-- With respect to the latch, the only Publish call on a transport connection
is the one numbered j. -/
structure Latch (j : Nat) (s : World) : Prop where
  others : ∀ k call, s.pubs k = some call → k ≠ j → call.c.asSrt = none
  count : s.closes = if s.pb.abort then 1 else 0
  fired : s.pb.abort = true → ∃ call r, s.pubs j = some call ∧ call.pc = .returned r
  noPanic : ∀ k call, s.pubs k = some call → call.pc ≠ .panicked

/-- The steps of the Publish call numbered j. -/
def Action.ofPublish (j : Nat) : Action → Bool
  | .publish k _ => k = j
  | .pubRead k _ => k = j
  | .pubOffer k => k = j
  | .pubClose k => k = j
  | _ => false

/-- The step closes the abort channel on behalf of a call other than j. -/
def Action.closesFor (j : Nat) : Action → Bool
  | .pubClose k => k ≠ j
  | _ => false

/-- The steps of a Subscribe call numbered i that takes n more packets from
its channel, writing each with success, and then takes the abort branch and
runs its deferred function. -/
def Subscribe.drain (i n : Nat) : List Action :=
  (List.replicate n [Action.subRecv i, Action.subWrite i none]).flatten ++
    [Action.subAbort i, Action.subRelease i]

/-- A Publish call that has started and neither returned nor panicked. -/
def PublishCall.active (call : PublishCall) : Bool :=
  match call.pc with
  | .reading => true
  | .offering _ => true
  | .closing _ => true
  | _ => false

/-- At every point of the schedule at most one Publish call is active. -/
def NoOverlap (acts : List Action) : Prop :=
  ∀ n j k cj ck, (exec NewPubSub (acts.take n)).pubs j = some cj →
    (exec NewPubSub (acts.take n)).pubs k = some ck →
    cj.active = true → ck.active = true → j = k

/-- Broadcast actions. -/
def Action.isPump : Action → Bool
  | .pumpAbort => true
  | .pumpRecv => true
  | .pumpLock => true
  | .pumpOffer _ _ => true
  | .pumpUnlock => true
  | _ => false

/-- The packet a Subscribe call has taken from its channel and not yet
written. -/
def SubscribeCall.inflight (call : SubscribeCall) : List packet :=
  match call.pc with
  | .writing p => [p]
  | _ => []

/-- The packets a Subscribe call has passed to WritePacket, in order. -/
def SubscribeCall.written (call : SubscribeCall) : List packet :=
  call.writes.map Prod.fst

/-- Everything a channel was ever sent, from the call that owns it and its
buffer: what the call wrote, what it holds, and what is still queued. -/
def receivedOf (sub : Option SubscribeCall) (chan : List packet) : List packet :=
  (match sub with
    | some call => call.written ++ call.inflight
    | none => []) ++ chan

/-- Everything the channel of call i was ever sent. -/
def World.received (s : World) (i : Nat) : List packet :=
  receivedOf (s.subs i) (s.chans i)

/-- The packets the broadcast loop has taken under the lock, as far as channel
l is concerned: while the for-range has still to visit l, the packet in hand
is not counted. -/
def BroadcastPc.seen (pump : BroadcastPc) (fanned : List packet) (l : Nat) : List packet :=
  match pump with
  | .ranging _ todo => if l ∈ todo.map Prod.snd then fanned.dropLast else fanned
  | _ => fanned

/-- The packets taken by the broadcast loop as far as channel l is concerned. -/
def World.seen (s : World) (l : Nat) : List packet :=
  s.pump.seen s.fanned l

/-- Per channel: before registration it is empty; afterwards what it was ever
sent is, in order, among the clones of the packets taken since it joined. -/
def DeliverOf (sub : Option SubscribeCall) (chan seen : List packet) : Prop :=
  match sub with
  | none => chan = []
  | some call =>
    if call.pc = .registering then chan = [] ∧ call.writes = []
    else call.joined ≤ seen.length ∧
      (receivedOf sub chan).Sublist ((seen.drop call.joined).map packet.Clone)

/-- The delivery property of the channel of call i. -/
def World.Deliver (s : World) (i : Nat) : Prop :=
  DeliverOf (s.subs i) (s.chans i) (s.seen i)

/-- The delivery invariant of the broadcast loop. -/
structure Fan (s : World) : Prop where
  hand : ∀ p todo, s.pump = .ranging p todo → ∃ f, s.fanned = f ++ [p]
  deliver : ∀ i, s.Deliver i

/-- The packet the broadcast loop has taken from incoming and not yet fanned
out (it waits for the lock). -/
def BroadcastPc.holding : BroadcastPc → List packet
  | .locking p => [p]
  | _ => []

/-- The packet a Publish call has read and not yet offered to incoming. -/
def pendingOf : Option PublishCall → List packet
  | some call =>
    match call.pc with
    | .offering p => [p]
    | _ => []
  | none => []

/-- The packet of a successful ReadPacket. -/
def ReadResult.packet? : ReadResult → Option packet
  | .ok p => some p
  | .err _ => none

/-- The packets the ReadPacket calls of a Publish call returned, in order. -/
def readPacketsOf : Option PublishCall → List packet
  | some call => call.reads.filterMap ReadResult.packet?
  | none => []

/-- The packets the ReadPacket calls of the Publish call j returned. -/
def World.readPackets (s : World) (j : Nat) : List packet :=
  readPacketsOf (s.pubs j)

/-- The packets on their way from the Publish call j to the subscribers, in
order: taken by the broadcast loop, held by it, queued in incoming, read and
not yet offered. -/
def World.pipeline (s : World) (j : Nat) : List packet :=
  s.fanned ++ s.pump.holding ++ s.pb.incoming ++ pendingOf (s.pubs j)

/-- The ingest invariant when j is the only Publish call on a transport
connection: the pipeline is, in order, among the packets read, and it is all
of them when incoming never was full. -/
structure Ingest (j : Nat) (s : World) : Prop where
  others : ∀ k call, s.pubs k = some call → k ≠ j → call.c.asSrt = none
  sub : (s.pipeline j).Sublist (s.readPackets j)
  all : Diag.incomingFull ∉ s.logs → s.pipeline j = s.readPackets j

/-- A two-packet run in which every packet is fanned out and written before the
publisher reads EOF. -/
def promptRun : List Action :=
  [.subscribe 0 (.srt ⟨5⟩), .subRegister 0, .publish 0 (.srt ⟨9⟩),
   .pubRead 0 (.ok ⟨1, 0⟩), .pubOffer 0, .pumpRecv, .pumpLock, .pumpOffer 5 0, .pumpUnlock,
   .subRecv 0, .subWrite 0 none,
   .pubRead 0 (.ok ⟨2, 0⟩), .pubOffer 0, .pumpRecv, .pumpLock, .pumpOffer 5 0, .pumpUnlock,
   .subRecv 0, .subWrite 0 none,
   .pubRead 0 (.err .EOF), .pubClose 0, .pumpAbort, .subAbort 0, .subRelease 0]

/-- One fan-out of the broadcast loop, lines 46 to 56, run without
interruption: the lock is taken, the for-range visits the registry entries in
the order given (Go leaves the order of a map iteration open), the lock is
released. -/
def broadcast.fanOut (order : List (Nat × Nat)) : List Action :=
  Action.pumpLock :: order.map (fun e => Action.pumpOffer e.1 e.2) ++ [Action.pumpUnlock]

/-- What the non-blocking send leaves in a channel: the clone appended when
there is room, the buffer as it was when it is full. -/
def offered (c : List packet) (p : packet) : List packet :=
  if c.length < chanCap then c ++ [p.Clone] else c

/-- The Subscribe call i has registered and its channel is not in the
registry: an earlier registration under the same socketId was overwritten or
deleted, or the call has released it. -/
def World.Detached (s : World) (i : Nat) : Prop :=
  (∃ call, s.subs i = some call ∧ call.pc ≠ .registering) ∧
    i ∉ s.pb.listeners.map Prod.snd

/-- Two Subscribe calls under the socketId 5: call 0 registers and is sent one
packet, then call 1 is made. -/
def sharedSocketId : List Action :=
  [.subscribe 0 (.srt ⟨5⟩), .subRegister 0, .publish 0 (.srt ⟨9⟩),
   .pubRead 0 (.ok ⟨1, 0⟩), .pubOffer 0, .pumpRecv, .pumpLock, .pumpOffer 5 0, .pumpUnlock,
   .subscribe 1 (.srt ⟨5⟩)]

/-- Two Publish calls on transport connections, one after the other: the
second starts when the first has returned. -/
def twoPublishes : List Action :=
  [.publish 0 (.srt ⟨9⟩), .pubRead 0 (.err .EOF), .pubClose 0,
   .publish 1 (.srt ⟨9⟩), .pubRead 1 (.err .EOF), .pubClose 1]

/-- One subscriber is sent one packet and its WritePacket fails. -/
def writeFails : List Action :=
  [.subscribe 0 (.srt ⟨5⟩), .subRegister 0, .publish 0 (.srt ⟨9⟩), .pubRead 0 (.ok ⟨1, 0⟩),
   .pubOffer 0, .pumpRecv, .pumpLock, .pumpOffer 5 0, .pumpUnlock, .subRecv 0,
   .subWrite 0 (some (.transport 4)), .subRelease 0]

/-- A second Publish call on a transport connection, made after the first has
returned: its ReadPacket yields one packet and then an error. -/
def publishAfterClose : List Action :=
  [.publish 0 (.srt ⟨9⟩), .pubRead 0 (.err .EOF), .pubClose 0,
   .publish 1 (.srt ⟨8⟩), .pubRead 1 (.ok ⟨1, 0⟩), .pubOffer 1,
   .pubRead 1 (.err (.transport 3)), .pubClose 1]

/-- One subscriber and two Publish calls on transport connections, one after
the other: the first reads packet 1 and EOF and returns; the broadcast loop,
at its select with the abort channel closed and incoming not empty, takes the
packet; the second call reads packet 2; the subscriber writes both clones. -/
def twoPubsOneSub : List Action :=
  [.subscribe 0 (.srt ⟨5⟩), .subRegister 0,
   .publish 0 (.srt ⟨9⟩), .pubRead 0 (.ok ⟨1, 0⟩), .pubOffer 0, .pubRead 0 (.err .EOF),
   .pubClose 0,
   .pumpRecv, .pumpLock, .pumpOffer 5 0, .pumpUnlock,
   .publish 1 (.srt ⟨8⟩), .pubRead 1 (.ok ⟨2, 0⟩), .pubOffer 1,
   .pumpRecv, .pumpLock, .pumpOffer 5 0, .pumpUnlock,
   .subRecv 0, .subWrite 0 none, .subRecv 0, .subWrite 0 none]

/-! ## The registry invariant -/

theorem mem_mapSet (m : List (Nat × Nat)) (sid i k l : Nat) :
    (k, l) ∈ mapSet m sid i ↔ (k = sid ∧ l = i) ∨ (k ≠ sid ∧ (k, l) ∈ m) := by
  simp [mapSet, List.mem_filter]
  tauto

theorem mem_mapDelete (m : List (Nat × Nat)) (sid k l : Nat) :
    (k, l) ∈ mapDelete m sid ↔ k ≠ sid ∧ (k, l) ∈ m := by
  simp [mapDelete, List.mem_filter]
  tauto

theorem keys_mapDelete (m : List (Nat × Nat)) (sid : Nat)
    (h : (m.map Prod.fst).Nodup) : ((mapDelete m sid).map Prod.fst).Nodup :=
  (List.filter_sublist m).map Prod.fst |>.nodup h

theorem keys_mapSet (m : List (Nat × Nat)) (sid i : Nat)
    (h : (m.map Prod.fst).Nodup) : ((mapSet m sid i).map Prod.fst).Nodup := by
  simp only [mapSet, List.map_cons, List.nodup_cons]
  refine ⟨?_, keys_mapDelete m sid h⟩
  simp [List.mem_filter]

theorem trySend_length {c q : List packet} {p : packet} (h : trySend c p = some q) :
    q = c ++ [p] ∧ c.length < chanCap := by
  simp only [trySend] at h
  split at h
  · cases h; exact ⟨rfl, by assumption⟩
  · cases h

theorem Inv.init_inv : Inv NewPubSub := by
  constructor <;> simp [NewPubSub]

theorem Inv.publish_call_inv {s : World} (h : Inv s) (j : Nat) (c : Conn) :
    Inv (Publish.call s j c) := by
  unfold Publish.call
  split
  · exact h
  · split <;> exact ⟨h.owner, h.keys, h.lockPump, h.todo, h.chanBound, h.inBound⟩

theorem Inv.publish_read_inv {s : World} (h : Inv s) (j : Nat) (res : ReadResult) :
    Inv (Publish.read s j res) := by
  unfold Publish.read
  split
  · exact h
  · split
    · split <;> exact ⟨h.owner, h.keys, h.lockPump, h.todo, h.chanBound, h.inBound⟩
    · exact h

theorem Inv.publish_offer_inv {s : World} (h : Inv s) (j : Nat) :
    Inv (Publish.offer s j) := by
  unfold Publish.offer
  split
  · exact h
  · split
    · split
      · rename_i q hq
        refine ⟨h.owner, h.keys, h.lockPump, h.todo, h.chanBound, ?_⟩
        obtain ⟨rfl, hlt⟩ := trySend_length hq
        simp; omega
      · exact ⟨h.owner, h.keys, h.lockPump, h.todo, h.chanBound, h.inBound⟩
    · exact h

theorem Inv.publish_close_inv {s : World} (h : Inv s) (j : Nat) :
    Inv (Publish.close s j) := by
  unfold Publish.close
  split
  · exact h
  · split
    · split <;> exact ⟨h.owner, h.keys, h.lockPump, h.todo, h.chanBound, h.inBound⟩
    · exact h

theorem Inv.subscribe_call_inv {s : World} (h : Inv s) (i : Nat) (c : Conn) :
    Inv (Subscribe.call s i c) := by
  unfold Subscribe.call
  split
  · exact h
  · rename_i hnone
    have key : ∀ call, Inv (s.setSub i call) := by
      intro call
      refine ⟨?_, h.keys, h.lockPump, h.todo, h.chanBound, h.inBound⟩
      intro k l hkl
      obtain ⟨c0, hc0, hk, hr⟩ := h.owner k l hkl
      have hne : l ≠ i := by rintro rfl; rw [hnone] at hc0; cases hc0
      exact ⟨c0, by simp [World.setSub, Function.update_noteq hne, hc0], hk, hr⟩
    split
    · exact key _
    · split <;> exact key _

/-- A step of Subscribe call i that keeps it registered, or leaves it
unregistered, and changes neither its socketId nor the registry. -/
theorem Inv.setSub_same {s : World} (h : Inv s) (i : Nat) (call call2 : SubscribeCall)
    (hc : s.subs i = some call) (hsid : call2.socketId = call.socketId)
    (hreg : call.pc.registered = true → call2.pc.registered = true) :
    Inv (s.setSub i call2) := by
  refine ⟨?_, h.keys, h.lockPump, h.todo, h.chanBound, h.inBound⟩
  intro k l hkl
  obtain ⟨c0, hc0, hk, hr⟩ := h.owner k l hkl
  by_cases hl : l = i
  · subst hl
    rw [hc] at hc0; cases hc0
    exact ⟨call2, by simp [World.setSub], by rw [hsid, hk], hreg hr⟩
  · exact ⟨c0, by simp [World.setSub, Function.update_noteq hl, hc0], hk, hr⟩

theorem Inv.subscribe_register_inv {s : World} (h : Inv s) (i : Nat) :
    Inv (Subscribe.register s i) := by
  unfold Subscribe.register
  split
  · exact h
  · rename_i call hcall
    split
    · rename_i hpc
      split
      · exact h
      · rename_i hlock
        have hnr : ∀ p todo, s.pump ≠ .ranging p todo := by
          intro p todo hp
          exact hlock (h.lockPump.mpr ⟨p, todo, hp⟩)
        refine ⟨?_, keys_mapSet _ _ _ h.keys, ?_, ?_, h.chanBound, h.inBound⟩
        · intro k l hkl
          rcases (mem_mapSet _ _ _ _ _).mp hkl with ⟨rfl, rfl⟩ | ⟨_, hm⟩
          · exact ⟨{ call with pc := .selecting, joined := s.fanned.length }, by simp, rfl, rfl⟩
          · obtain ⟨c0, hc0, hk, hr⟩ := h.owner k l hm
            have hl : l ≠ i := by
              rintro rfl
              rw [hcall] at hc0; cases hc0
              rw [hpc] at hr; cases hr
            exact ⟨c0, by simp [Function.update_noteq hl, hc0], hk, hr⟩
        · simpa using h.lockPump
        · intro p todo hp
          exact absurd hp (hnr p todo)
    · exact h

theorem Inv.subscribe_onAbort_inv {s : World} (h : Inv s) (i : Nat) :
    Inv (Subscribe.onAbort s i) := by
  unfold Subscribe.onAbort
  split
  · exact h
  · rename_i call hcall
    split
    · split
      · exact h.setSub_same i call _ hcall rfl (fun _ => rfl)
      · exact h
    · exact h

theorem Inv.subscribe_recv_inv {s : World} (h : Inv s) (i : Nat) :
    Inv (Subscribe.recv s i) := by
  unfold Subscribe.recv
  split
  · exact h
  · rename_i call hcall
    split
    · split
      · exact h
      · rename_i p rest hch
        have h2 := h.setSub_same i call { call with pc := .writing p } hcall rfl (fun _ => rfl)
        refine ⟨h2.owner, h.keys, h.lockPump, h.todo, ?_, h.inBound⟩
        intro l
        by_cases hl : l = i
        · subst hl
          have := h.chanBound l
          rw [hch] at this
          simp at this ⊢
          omega
        · simpa [Function.update_noteq hl] using h.chanBound l
    · exact h

theorem Inv.subscribe_write_inv {s : World} (h : Inv s) (i : Nat) (res : Option Err) :
    Inv (Subscribe.write s i res) := by
  unfold Subscribe.write
  split
  · exact h
  · rename_i call hcall
    split
    · split
      · exact h.setSub_same i call _ hcall rfl (fun _ => rfl)
      · exact h.setSub_same i call _ hcall rfl (fun _ => rfl)
    · exact h

theorem Inv.subscribe_release_inv {s : World} (h : Inv s) (i : Nat) :
    Inv (Subscribe.release s i) := by
  unfold Subscribe.release
  split
  · exact h
  · rename_i call hcall
    split
    · rename_i ret hpc
      split
      · exact h
      · rename_i hlock
        have hnr : ∀ p todo, s.pump ≠ .ranging p todo := by
          intro p todo hp
          exact hlock (h.lockPump.mpr ⟨p, todo, hp⟩)
        refine ⟨?_, keys_mapDelete _ _ h.keys, ?_, ?_, h.chanBound, h.inBound⟩
        · intro k l hkl
          obtain ⟨hne, hm⟩ := (mem_mapDelete _ _ _ _).mp hkl
          obtain ⟨c0, hc0, hk, hr⟩ := h.owner k l hm
          have hl : l ≠ i := by
            rintro rfl
            rw [hcall] at hc0; cases hc0
            exact hne hk.symm
          exact ⟨c0, by simp [Function.update_noteq hl, hc0], hk, hr⟩
        · simpa using h.lockPump
        · intro p todo hp
          exact absurd hp (hnr p todo)
    · exact h

theorem Inv.broadcast_onAbort_inv {s : World} (h : Inv s) : Inv (broadcast.onAbort s) := by
  unfold broadcast.onAbort
  split
  · rename_i hp
    split
    · refine ⟨h.owner, h.keys, ?_, ?_, h.chanBound, h.inBound⟩
      · have := h.lockPump
        simp [hp] at this
        simp [this]
      · intro p todo hp2
        cases hp2
    · exact h
  · exact h

theorem Inv.broadcast_recv_inv {s : World} (h : Inv s) : Inv (broadcast.recv s) := by
  unfold broadcast.recv
  split
  · rename_i hp
    split
    · exact h
    · rename_i p rest hin
      refine ⟨h.owner, h.keys, ?_, ?_, h.chanBound, ?_⟩
      · have := h.lockPump
        simp [hp] at this
        simp [this]
      · intro p todo hp2
        cases hp2
      · have := h.inBound
        rw [hin] at this
        simp at this ⊢
        omega
  · exact h

theorem Inv.broadcast_lock_inv {s : World} (h : Inv s) : Inv (broadcast.lock s) := by
  unfold broadcast.lock
  split
  · split
    · exact h
    · refine ⟨h.owner, h.keys, ?_, ?_, h.chanBound, h.inBound⟩
      · simp
      · intro p todo hp2
        cases hp2
        exact List.Sublist.refl _
  · exact h

theorem Inv.broadcast_offer_inv {s : World} (h : Inv s) (k l : Nat) :
    Inv (broadcast.offer s k l) := by
  unfold broadcast.offer
  split
  · rename_i p todo hp
    have hlock : s.pb.lock = true := h.lockPump.mpr ⟨p, todo, hp⟩
    have hsub : (todo.erase (k, l)).Sublist s.pb.listeners :=
      (List.erase_sublist _ _).trans (h.todo p todo hp)
    split
    · split
      · rename_i q hq
        obtain ⟨rfl, hlt⟩ := trySend_length hq
        refine ⟨h.owner, h.keys, ?_, ?_, ?_, h.inBound⟩
        · simp [hlock]
        · intro p2 todo2 hp2
          cases hp2
          exact hsub
        · intro l2
          by_cases hl : l2 = l
          · subst hl
            simp
            omega
          · simpa [Function.update_noteq hl] using h.chanBound l2
      · refine ⟨h.owner, h.keys, ?_, ?_, h.chanBound, h.inBound⟩
        · simp [hlock]
        · intro p2 todo2 hp2
          cases hp2
          exact hsub
    · exact h
  · exact h

theorem Inv.broadcast_unlock_inv {s : World} (h : Inv s) : Inv (broadcast.unlock s) := by
  unfold broadcast.unlock
  split
  · refine ⟨h.owner, h.keys, ?_, ?_, h.chanBound, h.inBound⟩
    · simp
    · intro p todo hp2
      cases hp2
  · exact h

theorem Inv.step_inv {s : World} (h : Inv s) (a : Action) : Inv (step s a) := by
  cases a with
  | publish j c => exact h.publish_call_inv j c
  | pubRead j res => exact h.publish_read_inv j res
  | pubOffer j => exact h.publish_offer_inv j
  | pubClose j => exact h.publish_close_inv j
  | subscribe i c => exact h.subscribe_call_inv i c
  | subRegister i => exact h.subscribe_register_inv i
  | subAbort i => exact h.subscribe_onAbort_inv i
  | subRecv i => exact h.subscribe_recv_inv i
  | subWrite i res => exact h.subscribe_write_inv i res
  | subRelease i => exact h.subscribe_release_inv i
  | pumpAbort => exact h.broadcast_onAbort_inv
  | pumpRecv => exact h.broadcast_recv_inv
  | pumpLock => exact h.broadcast_lock_inv
  | pumpOffer k l => exact h.broadcast_offer_inv k l
  | pumpUnlock => exact h.broadcast_unlock_inv

theorem exec_append (s : World) (xs ys : List Action) :
    exec s (xs ++ ys) = exec (exec s xs) ys := by
  simp [exec, List.foldl_append]

theorem exec_cons (s : World) (a : Action) (xs : List Action) :
    exec s (a :: xs) = exec (step s a) xs := rfl

theorem exec_nil (s : World) : exec s [] = s := rfl

/-- Induction over a schedule: a property of the start state that every step
of the schedule keeps holds at the end. -/
theorem exec_induction (P : World → Prop) (acts : List Action) :
    ∀ s, P s → (∀ t a, a ∈ acts → P t → P (step t a)) → P (exec s acts) := by
  induction acts with
  | nil => intro s h _; exact h
  | cons a rest ih =>
    intro s h hstep
    rw [exec_cons]
    exact ih _ (hstep s a (List.mem_cons_self _ _) h)
      (fun t b hb ht => hstep t b (List.mem_cons_of_mem _ hb) ht)

theorem Inv.exec_inv {s : World} (h : Inv s) (acts : List Action) : Inv (exec s acts) :=
  exec_induction Inv acts s h (fun _ a _ ht => ht.step_inv a)

theorem Inv.reachable {s : World} (h : Reachable s) : Inv s := by
  obtain ⟨acts, rfl⟩ := h
  exact Inv.init_inv.exec_inv acts

theorem frame_nonpub (s : World) (a : Action) (h : a.isPub = false) :
    (step s a).pubs = s.pubs ∧ (step s a).pb.abort = s.pb.abort ∧
      (step s a).closes = s.closes := by
  cases a <;> simp [Action.isPub] at h <;> simp only [step]
  all_goals first
    | (unfold Subscribe.call; repeat' split) <;> simp [World.setSub]
    | (unfold Subscribe.register; repeat' split) <;> simp
    | (unfold Subscribe.onAbort; repeat' split) <;> simp [World.setSub]
    | (unfold Subscribe.recv; repeat' split) <;> simp
    | (unfold Subscribe.write; repeat' split) <;> simp [World.setSub]
    | (unfold Subscribe.release; repeat' split) <;> simp
    | (unfold broadcast.onAbort; repeat' split) <;> simp
    | (unfold broadcast.recv; repeat' split) <;> simp
    | (unfold broadcast.lock; repeat' split) <;> simp
    | (unfold broadcast.offer; repeat' split) <;> simp
    | (unfold broadcast.unlock; repeat' split) <;> simp

theorem frame_nonsub (s : World) (a : Action) (h : a.isSub = false) :
    (step s a).subs = s.subs := by
  cases a <;> simp [Action.isSub] at h <;> simp only [step]
  all_goals first
    | (unfold Publish.call; repeat' split) <;> simp [World.setPub]
    | (unfold Publish.read; repeat' split) <;> simp [World.setPub]
    | (unfold Publish.offer; repeat' split) <;> simp
    | (unfold Publish.close; repeat' split) <;> simp
    | (unfold broadcast.onAbort; repeat' split) <;> simp
    | (unfold broadcast.recv; repeat' split) <;> simp
    | (unfold broadcast.lock; repeat' split) <;> simp
    | (unfold broadcast.offer; repeat' split) <;> simp
    | (unfold broadcast.unlock; repeat' split) <;> simp

theorem PublishCall.wf_true_publishCall {a : Bool} {call : PublishCall} (h : call.wf a) : call.wf true := by
  unfold PublishCall.wf at h ⊢
  split at h
  · exact h
  · split at h
    · exact h
    · exact h
    · exact h
    · obtain ⟨ps, e, h1, h2, _⟩ := h
      exact ⟨ps, e, h1, h2, rfl⟩
    · obtain ⟨ps, e, h1, _⟩ := h
      exact ⟨ps, e, h1, rfl⟩

theorem PubOk.init_pubOk : PubOk NewPubSub := by
  intro j call h
  simp [NewPubSub] at h

/-- A step that changes at most the Publish call j, to a well-formed call, and
not the abort channel. -/
theorem PubOk.setPub_pubOk {s : World} (h : PubOk s) (j : Nat) (call : PublishCall)
    (hc : call.wf s.pb.abort) (t : World) (ht : t.pubs = Function.update s.pubs j (some call))
    (ha : t.pb.abort = s.pb.abort) : PubOk t := by
  intro k c0 hk
  rw [ht] at hk
  rw [ha]
  by_cases hkj : k = j
  · subst hkj
    simp at hk
    subst hk
    exact hc
  · rw [Function.update_noteq hkj] at hk
    exact h k c0 hk

theorem PubOk.publish_call_pubOk {s : World} (h : PubOk s) (j : Nat) (c : Conn) :
    PubOk (Publish.call s j c) := by
  unfold Publish.call
  split
  · exact h
  · split
    · rename_i hc
      exact h.setPub_pubOk j _ (by simp [PublishCall.wf, hc]) _ rfl rfl
    · rename_i conn hc
      exact h.setPub_pubOk j _ (by simp only [PublishCall.wf, hc]; exact ⟨[], rfl⟩) _ rfl rfl

theorem PubOk.publish_read_pubOk {s : World} (h : PubOk s) (j : Nat) (res : ReadResult) :
    PubOk (Publish.read s j res) := by
  unfold Publish.read
  split
  · exact h
  · rename_i call hcall
    have hw := h j call hcall
    split
    · rename_i hpc
      unfold PublishCall.wf at hw
      split at hw
      · rw [hpc] at hw; cases hw.1
      · rename_i conn hconn
        rw [hpc] at hw
        obtain ⟨ps, hps⟩ := hw
        split
        · exact h.setPub_pubOk j _ (by simp only [PublishCall.wf, hconn]; exact ⟨ps, by rw [hps]⟩)
            _ rfl rfl
        · exact h.setPub_pubOk j _ (by simp only [PublishCall.wf, hconn]; exact ⟨ps, by rw [hps]⟩)
            _ rfl rfl
    · exact h

theorem PubOk.publish_offer_pubOk {s : World} (h : PubOk s) (j : Nat) :
    PubOk (Publish.offer s j) := by
  unfold Publish.offer
  split
  · exact h
  · rename_i call hcall
    have hw := h j call hcall
    split
    · rename_i p hpc
      have hw2 : ({ call with pc := PublishPc.reading } : PublishCall).wf s.pb.abort := by
        unfold PublishCall.wf at hw ⊢
        split at hw
        · rw [hpc] at hw; cases hw.1
        · rename_i conn hconn
          rw [hpc] at hw
          obtain ⟨ps, hps⟩ := hw
          simp only [hconn]
          exact ⟨ps ++ [p], by simp [hps]⟩
      split
      · exact h.setPub_pubOk j _ hw2 _ rfl rfl
      · exact h.setPub_pubOk j _ hw2 _ rfl rfl
    · exact h

theorem PubOk.publish_close_pubOk {s : World} (h : PubOk s) (j : Nat) :
    PubOk (Publish.close s j) := by
  unfold Publish.close
  split
  · exact h
  · rename_i call hcall
    have hw := h j call hcall
    split
    · rename_i e hpc
      have hsrt : ∃ conn, call.c.asSrt = some conn ∧
          ∃ ps : List packet, call.reads = ps.map .ok ++ [.err e] := by
        unfold PublishCall.wf at hw
        split at hw
        · rw [hpc] at hw; cases hw.1
        · rename_i conn hconn
          rw [hpc] at hw
          exact ⟨conn, hconn, hw⟩
      obtain ⟨conn, hconn, ps, hps⟩ := hsrt
      split
      · rename_i hab
        exact h.setPub_pubOk j _ (by simp only [PublishCall.wf, hconn]; exact ⟨ps, e, hps, hab⟩) _ rfl rfl
      · intro k c0 hk
        show c0.wf true
        by_cases hkj : k = j
        · subst hkj
          simp at hk
          subst hk
          simp only [PublishCall.wf, hconn]
          refine ⟨ps, e, hps, ?_⟩
          simp
        · simp [Function.update_noteq hkj] at hk
          exact PublishCall.wf_true_publishCall (h k c0 hk)
    · exact h

theorem PubOk.step_pubOk {s : World} (h : PubOk s) (a : Action) : PubOk (step s a) := by
  by_cases hp : a.isPub = true
  · cases a <;> simp [Action.isPub] at hp
    · exact h.publish_call_pubOk _ _
    · exact h.publish_read_pubOk _ _
    · exact h.publish_offer_pubOk _
    · exact h.publish_close_pubOk _
  · obtain ⟨h1, h2, _⟩ := frame_nonpub s a (by simpa using hp)
    intro j call hj
    rw [h1] at hj
    rw [h2]
    exact h j call hj

theorem PubOk.exec_pubOk {s : World} (h : PubOk s) (acts : List Action) : PubOk (exec s acts) :=
  exec_induction PubOk acts s h (fun _ a _ ht => ht.step_pubOk a)

theorem Subscribe.Outcome.mono {a : Bool} {ws : List (packet × Option Err)} {r : Option Err}
    (h : Subscribe.Outcome a ws r) : Subscribe.Outcome true ws r := by
  rcases h with ⟨h1, _, h3⟩ | h
  · exact Or.inl ⟨h1, rfl, h3⟩
  · exact Or.inr h

theorem SubscribeCall.wf_true_subscribeCall {a : Bool} {call : SubscribeCall} (h : call.wf a) :
    call.wf true := by
  unfold SubscribeCall.wf at h ⊢
  refine ⟨h.1, ?_⟩
  have h2 := h.2
  split at h2
  · exact h2
  · split at h2
    · exact h2
    · exact h2
    · exact h2
    · exact h2.mono
    · exact h2.mono
    · exact h2

theorem abort_step (s : World) (a : Action) :
    (step s a).pb.abort = s.pb.abort ∨ (step s a).pb.abort = true := by
  by_cases hp : a.isPub = true
  · cases a <;> simp [Action.isPub] at hp <;> simp only [step]
    · left; (unfold Publish.call; repeat' split) <;> simp [World.setPub]
    · left; (unfold Publish.read; repeat' split) <;> simp [World.setPub]
    · left; (unfold Publish.offer; repeat' split) <;> simp
    · (unfold Publish.close; repeat' split) <;> simp
  · exact Or.inl (frame_nonpub s a (by simpa using hp)).2.1

theorem SubOk.init_subOk : SubOk NewPubSub := by
  intro j call h
  simp [NewPubSub] at h

/-- A step that changes at most the Subscribe call i, to a well-formed call,
and not the abort channel. -/
theorem SubOk.setSub {s : World} (h : SubOk s) (i : Nat) (call : SubscribeCall)
    (hc : call.wf s.pb.abort) (t : World) (ht : t.subs = Function.update s.subs i (some call))
    (ha : t.pb.abort = s.pb.abort) : SubOk t := by
  intro k c0 hk
  rw [ht] at hk
  rw [ha]
  by_cases hki : k = i
  · subst hki
    simp at hk
    subst hk
    exact hc
  · rw [Function.update_noteq hki] at hk
    exact h k c0 hk

theorem Conn.asSrt_of_panic {c : Conn} (h : c.SocketId = none) : c.asSrt = none := by
  cases c <;> simp [Conn.SocketId, Conn.asSrt] at h ⊢

theorem SubOk.subscribe_call_subOk {s : World} (h : SubOk s) (i : Nat) (c : Conn) :
    SubOk (Subscribe.call s i c) := by
  unfold Subscribe.call
  split
  · exact h
  · split
    · rename_i hsid
      exact h.setSub i _ (by simp [SubscribeCall.wf, hsid, Conn.asSrt_of_panic hsid]) _ rfl rfl
    · rename_i k hsid
      split
      · rename_i hc
        exact h.setSub i _ (by simp [SubscribeCall.wf, hc, hsid]) _ rfl rfl
      · rename_i conn hc
        exact h.setSub i _ (by simp [SubscribeCall.wf, hc, hsid]) _ rfl rfl

/-- The facts of a well-formed call whose control point is not one a call on
a connection that is no transport connection is left at. -/
theorem SubscribeCall.wf_srt {a : Bool} {call : SubscribeCall} (h : call.wf a)
    (hpc : (∀ r, call.pc ≠ .returned r) ∧ call.pc ≠ .panicked) :
    ∃ conn, call.c.asSrt = some conn := by
  unfold SubscribeCall.wf at h
  have h2 := h.2
  split at h2
  · rcases h2.1 with h3 | h3
    · exact absurd h3 (hpc.1 _)
    · exact absurd h3 hpc.2
  · rename_i conn hconn
    exact ⟨conn, hconn⟩

theorem SubOk.subscribe_register_subOk {s : World} (h : SubOk s) (i : Nat) :
    SubOk (Subscribe.register s i) := by
  unfold Subscribe.register
  split
  · exact h
  · rename_i call hcall
    have hw := h i call hcall
    split
    · rename_i hpc
      split
      · exact h
      · obtain ⟨conn, hconn⟩ := SubscribeCall.wf_srt hw (by simp [hpc])
        refine h.setSub i _ ?_ _ rfl rfl
        unfold SubscribeCall.wf at hw ⊢
        simp only [hconn, hpc] at hw ⊢
        refine ⟨hw.1, ?_⟩
        simp [hw.2]
    · exact h

theorem SubOk.subscribe_onAbort_subOk {s : World} (h : SubOk s) (i : Nat) :
    SubOk (Subscribe.onAbort s i) := by
  unfold Subscribe.onAbort
  split
  · exact h
  · rename_i call hcall
    have hw := h i call hcall
    split
    · rename_i hpc
      split
      · rename_i hab
        obtain ⟨conn, hconn⟩ := SubscribeCall.wf_srt hw (by simp [hpc])
        refine h.setSub i _ ?_ _ rfl rfl
        unfold SubscribeCall.wf at hw ⊢
        simp only [hconn, hpc] at hw ⊢
        exact ⟨hw.1, Or.inl ⟨rfl, hab, hw.2⟩⟩
      · exact h
    · exact h

theorem SubOk.subscribe_recv_subOk {s : World} (h : SubOk s) (i : Nat) :
    SubOk (Subscribe.recv s i) := by
  unfold Subscribe.recv
  split
  · exact h
  · rename_i call hcall
    have hw := h i call hcall
    split
    · rename_i hpc
      split
      · exact h
      · obtain ⟨conn, hconn⟩ := SubscribeCall.wf_srt hw (by simp [hpc])
        refine h.setSub i _ ?_ _ rfl rfl
        unfold SubscribeCall.wf at hw ⊢
        simp only [hconn, hpc] at hw ⊢
        exact hw
    · exact h

theorem SubOk.subscribe_write_subOk {s : World} (h : SubOk s) (i : Nat) (res : Option Err) :
    SubOk (Subscribe.write s i res) := by
  unfold Subscribe.write
  split
  · exact h
  · rename_i call hcall
    have hw := h i call hcall
    split
    · rename_i p hpc
      obtain ⟨conn, hconn⟩ := SubscribeCall.wf_srt hw (by simp [hpc])
      unfold SubscribeCall.wf at hw
      simp only [hconn, hpc] at hw
      split
      · refine h.setSub i _ ?_ _ rfl rfl
        unfold SubscribeCall.wf
        simp only [hconn]
        refine ⟨hw.1, ?_⟩
        intro w hwm
        rcases List.mem_append.mp hwm with hm | hm
        · exact hw.2 w hm
        · simp at hm; subst hm; rfl
      · rename_i e
        refine h.setSub i _ ?_ _ rfl rfl
        unfold SubscribeCall.wf
        simp only [hconn]
        exact ⟨hw.1, Or.inr ⟨call.writes, p, e, rfl, hw.2, rfl⟩⟩
    · exact h

theorem SubOk.subscribe_release_subOk {s : World} (h : SubOk s) (i : Nat) :
    SubOk (Subscribe.release s i) := by
  unfold Subscribe.release
  split
  · exact h
  · rename_i call hcall
    have hw := h i call hcall
    split
    · rename_i r hpc
      split
      · exact h
      · obtain ⟨conn, hconn⟩ := SubscribeCall.wf_srt hw (by simp [hpc])
        refine h.setSub i _ ?_ _ rfl rfl
        unfold SubscribeCall.wf at hw ⊢
        simp only [hconn, hpc] at hw ⊢
        exact hw
    · exact h

theorem SubOk.step_subOk {s : World} (h : SubOk s) (a : Action) : SubOk (step s a) := by
  by_cases hp : a.isSub = true
  · cases a <;> simp [Action.isSub] at hp
    · exact h.subscribe_call_subOk _ _
    · exact h.subscribe_register_subOk _
    · exact h.subscribe_onAbort_subOk _
    · exact h.subscribe_recv_subOk _
    · exact h.subscribe_write_subOk _ _
    · exact h.subscribe_release_subOk _
  · have h1 := frame_nonsub s a (by simpa using hp)
    intro i call hi
    rw [h1] at hi
    rcases abort_step s a with h2 | h2
    · rw [h2]; exact h i call hi
    · rw [h2]; exact SubscribeCall.wf_true_subscribeCall (h i call hi)

theorem SubOk.exec_subOk {s : World} (h : SubOk s) (acts : List Action) : SubOk (exec s acts) :=
  exec_induction SubOk acts s h (fun _ a _ ht => ht.step_subOk a)

theorem Latch.init_latch (j : Nat) : Latch j NewPubSub := by
  constructor <;> simp [NewPubSub]

/-- A step of the Publish call k that keeps its argument, does not panic, and
leaves a returned call returned, with the latch as it was. -/
theorem Latch.setPub_latch {j : Nat} {s : World} (h : Latch j s) (k : Nat) (call call2 : PublishCall)
    (hc : s.pubs k = some call) (hcc : call2.c = call.c) (hnp : call2.pc ≠ .panicked)
    (hret : ∀ r, call.pc ≠ .returned r)
    (t : World) (ht : t.pubs = Function.update s.pubs k (some call2))
    (ha : t.pb.abort = s.pb.abort) (hcl : t.closes = s.closes) : Latch j t := by
  refine ⟨?_, by rw [ha, hcl]; exact h.count, ?_, ?_⟩
  · intro k2 c2 hk2 hne
    rw [ht] at hk2
    by_cases hkk : k2 = k
    · subst hkk
      simp at hk2
      subst hk2
      rw [hcc]
      exact h.others k2 call hc hne
    · simp [Function.update_noteq hkk] at hk2
      exact h.others k2 c2 hk2 hne
  · intro hab
    rw [ha] at hab
    obtain ⟨c0, r, h1, h2⟩ := h.fired hab
    have hne : j ≠ k := by
      rintro rfl
      rw [hc] at h1
      cases h1
      exact hret r h2
    exact ⟨c0, r, by rw [ht]; simp [Function.update_noteq hne, h1], h2⟩
  · intro k2 c2 hk2
    rw [ht] at hk2
    by_cases hkk : k2 = k
    · subst hkk
      simp at hk2
      subst hk2
      exact hnp
    · simp [Function.update_noteq hkk] at hk2
      exact h.noPanic k2 c2 hk2

theorem Latch.step_latch {j : Nat} {s : World} (h : Latch j s) (hok : PubOk s) (a : Action)
    (ha : ∀ k conn, a = .publish k (.srt conn) → k = j) : Latch j (step s a) := by
  by_cases hp : a.isPub = true
  · cases a <;> simp [Action.isPub] at hp
    · rename_i k c
      simp only [srt.step]
      unfold Publish.call
      split
      · exact h
      · rename_i hnone
        have hkj : ∀ conn, c.asSrt = some conn → k = j := by
          intro conn hc
          cases c with
          | nil => simp [Conn.asSrt] at hc
          | srt c0 => exact ha k c0 rfl
          | other sid => simp [Conn.asSrt] at hc
        have key : ∀ call : PublishCall, call.c = c → call.pc ≠ .panicked →
            Latch j (s.setPub k call) := by
          intro call hcc hcp
          refine ⟨?_, h.count, ?_, ?_⟩
          · intro k2 c2 hk2 hne
            by_cases hkk : k2 = k
            · subst hkk
              simp [World.setPub] at hk2
              subst hk2
              rw [hcc]
              cases hc : c.asSrt with
              | none => rfl
              | some conn => exact absurd (hkj conn hc) hne
            · simp [World.setPub, Function.update_noteq hkk] at hk2
              exact h.others k2 c2 hk2 hne
          · intro hab
            obtain ⟨c0, r, h1, h2⟩ := h.fired hab
            have hne : j ≠ k := by rintro rfl; rw [hnone] at h1; cases h1
            exact ⟨c0, r, by simp [World.setPub, Function.update_noteq hne, h1], h2⟩
          · intro k2 c2 hk2
            by_cases hkk : k2 = k
            · subst hkk
              simp [World.setPub] at hk2
              subst hk2
              exact hcp
            · simp [World.setPub, Function.update_noteq hkk] at hk2
              exact h.noPanic k2 c2 hk2
        split
        · exact key _ rfl (by simp)
        · exact key _ rfl (by simp)
    · rename_i k res
      simp only [srt.step]
      unfold Publish.read
      split
      · exact h
      · rename_i call hcall
        split
        · rename_i hpc
          split
          · rename_i p
            exact h.setPub_latch k call { call with pc := .offering p, reads := call.reads ++ [.ok p] }
              hcall rfl (by simp) (by simp [hpc]) _ rfl rfl rfl
          · rename_i e
            exact h.setPub_latch k call { call with pc := .closing e, reads := call.reads ++ [.err e] }
              hcall rfl (by simp) (by simp [hpc]) _ rfl rfl rfl
        · exact h
    · rename_i k
      simp only [srt.step]
      unfold Publish.offer
      split
      · exact h
      · rename_i call hcall
        split
        · rename_i p hpc
          split
          · exact h.setPub_latch k call { call with pc := .reading }
              hcall rfl (by simp) (by simp [hpc]) _ rfl rfl rfl
          · exact h.setPub_latch k call { call with pc := .reading }
              hcall rfl (by simp) (by simp [hpc]) _ rfl rfl rfl
        · exact h
    · rename_i k
      simp only [srt.step]
      unfold Publish.close
      split
      · exact h
      · rename_i call hcall
        split
        · rename_i e hpc
          have hsrt : call.c.asSrt ≠ none := by
            intro hc
            have hw := hok k call hcall
            unfold PublishCall.wf at hw
            simp only [hc] at hw
            rw [hpc] at hw
            cases hw.1
          have hkj : k = j := by
            by_contra hne
            exact hsrt (h.others k call hcall hne)
          subst hkj
          have hab : s.pb.abort = false := by
            cases hb : s.pb.abort with
            | false => rfl
            | true =>
              obtain ⟨c0, r, h1, h2⟩ := h.fired hb
              rw [hcall] at h1
              cases h1
              rw [hpc] at h2
              cases h2
          rw [if_neg (by simp [hab])]
          refine ⟨?_, ?_, ?_, ?_⟩
          · intro k2 c2 hk2 hne
            simp [Function.update_noteq hne] at hk2
            exact h.others k2 c2 hk2 hne
          · have := h.count
            simp [hab] at this
            simp [this]
          · intro _
            exact ⟨{ call with pc := .returned (some e) }, some e, by simp, rfl⟩
          · intro k2 c2 hk2
            by_cases hkk : k2 = k
            · subst hkk
              simp at hk2
              subst hk2
              simp
            · simp [Function.update_noteq hkk] at hk2
              exact h.noPanic k2 c2 hk2
        · exact h
  · obtain ⟨h1, h2, h3⟩ := frame_nonpub s a (by simpa using hp)
    exact ⟨by rw [h1]; exact h.others, by rw [h2, h3]; exact h.count,
      by rw [h1, h2]; exact h.fired, by rw [h1]; exact h.noPanic⟩

/-- In a schedule whose Publish calls on a transport connection all carry the
number j, the abort channel is closed at most once and no call panics. -/
theorem Latch.exec_latch (j : Nat) (acts : List Action)
    (hone : ∀ a ∈ acts, ∀ k conn, a = Action.publish k (.srt conn) → k = j) :
    Latch j (exec NewPubSub acts) := by
  have := exec_induction (fun s => PubOk s ∧ Latch j s) acts NewPubSub
    ⟨PubOk.init_pubOk, Latch.init_latch j⟩
    (fun t a ha ht => ⟨ht.1.step_pubOk a, ht.2.step_latch ht.1 a (hone a ha)⟩)
  exact this.2

theorem publish_own_local (j : Nat) (s t : World) (a : Action) (ha : a.ofPublish j = true)
    (hp : s.pubs j = t.pubs j) (hb : s.pb.abort = t.pb.abort) :
    (step s a).pubs j = (step t a).pubs j ∧ (step s a).pb.abort = (step t a).pb.abort := by
  cases a <;> simp [Action.ofPublish] at ha <;> subst ha <;> simp only [step]
  · unfold Publish.call
    rw [← hp]
    cases h : s.pubs _ with
    | some c0 => exact ⟨by rw [← hp, h], hb⟩
    | none =>
      simp only
      split <;> simp [World.setPub, hb]
  · unfold Publish.read
    rw [← hp]
    cases h : s.pubs _ with
    | none => exact ⟨by rw [← hp, h], hb⟩
    | some c0 =>
      simp only
      split
      · split <;> simp [World.setPub, hb]
      · exact ⟨by rw [← hp, h], hb⟩
  · unfold Publish.offer
    rw [← hp]
    cases h : s.pubs _ with
    | none => exact ⟨by rw [← hp, h], hb⟩
    | some c0 =>
      simp only
      split
      · split <;> split <;> simp [hb]
      · exact ⟨by rw [← hp, h], hb⟩
  · unfold Publish.close
    rw [← hp]
    cases h : s.pubs _ with
    | none => exact ⟨by rw [← hp, h], hb⟩
    | some c0 =>
      simp only
      split
      · rw [← hb]
        split <;> simp [hb]
      · exact ⟨by rw [← hp, h], hb⟩

theorem publish_foreign_frame (j : Nat) (s : World) (a : Action)
    (ha : a.ofPublish j = false) (hc : a.closesFor j = false) :
    (step s a).pubs j = s.pubs j ∧ (step s a).pb.abort = s.pb.abort := by
  by_cases hp : a.isPub = true
  · cases a <;> simp [Action.isPub] at hp <;> simp [Action.ofPublish] at ha <;>
      simp [Action.closesFor] at hc <;> simp only [step]
    · (unfold Publish.call; repeat' split) <;> simp [World.setPub, Function.update_noteq (Ne.symm ha)]
    · (unfold Publish.read; repeat' split) <;> simp [World.setPub, Function.update_noteq (Ne.symm ha)]
    · (unfold Publish.offer; repeat' split) <;> simp [Function.update_noteq (Ne.symm ha)]
    · exact absurd hc ha
  · obtain ⟨h1, h2, _⟩ := frame_nonpub s a (by simpa using hp)
    exact ⟨by rw [h1], h2⟩

/-- What a Publish call does depends on its own steps only, as long as no
other call closes the abort channel: the steps of other goroutines can be
dropped from the schedule. -/
theorem publish_local (j : Nat) (acts : List Action) :
    ∀ s t : World, s.pubs j = t.pubs j → s.pb.abort = t.pb.abort →
      (∀ a ∈ acts, a.closesFor j = false) →
      (exec s acts).pubs j = (exec t (acts.filter (Action.ofPublish j))).pubs j ∧
      (exec s acts).pb.abort = (exec t (acts.filter (Action.ofPublish j))).pb.abort := by
  induction acts with
  | nil => intro s t hp hb _; exact ⟨hp, hb⟩
  | cons a rest ih =>
    intro s t hp hb hcl
    have hrest : ∀ b ∈ rest, b.closesFor j = false :=
      fun b hb => hcl b (List.mem_cons_of_mem _ hb)
    by_cases ha : a.ofPublish j = true
    · rw [List.filter_cons_of_pos ha, exec_cons, exec_cons]
      obtain ⟨h1, h2⟩ := publish_own_local j s t a ha hp hb
      exact ih _ _ h1 h2 hrest
    · rw [List.filter_cons_of_neg ha, exec_cons]
      obtain ⟨h1, h2⟩ := publish_foreign_frame j s a (by simpa using ha)
        (hcl a (List.mem_cons_self _ _))
      exact ih _ _ (h1.trans hp) (h2.trans hb) hrest

theorem publish_loop (j : Nat) (c : Conn) (ps : List packet) :
    ∀ (s : World) (rs : List ReadResult), s.pubs j = some ⟨c, .reading, rs⟩ →
      (exec s (ps.flatMap (fun p => [Action.pubRead j (.ok p), Action.pubOffer j]))).pubs j
          = some ⟨c, .reading, rs ++ ps.map .ok⟩ ∧
      (exec s (ps.flatMap (fun p => [Action.pubRead j (.ok p), Action.pubOffer j]))).pb.abort
          = s.pb.abort := by
  induction ps with
  | nil => intro s rs h; simpa [exec] using h
  | cons p rest ih =>
    intro s rs h
    simp only [List.flatMap_cons, List.cons_append, List.nil_append, exec_cons]
    have h1 : (step (step s (.pubRead j (.ok p))) (.pubOffer j)).pubs j
        = some ⟨c, .reading, (rs ++ [.ok p])⟩ := by
      simp only [step, Publish.read, h, World.setPub]
      unfold Publish.offer
      simp only [Function.update_same]
      split <;> simp
    have h2 : (step (step s (.pubRead j (.ok p))) (.pubOffer j)).pb.abort = s.pb.abort := by
      simp only [step, Publish.read, h, World.setPub]
      unfold Publish.offer
      simp only [Function.update_same]
      split <;> simp
    obtain ⟨h3, h4⟩ := ih _ _ h1
    exact ⟨by simpa using h3, h4.trans h2⟩

/-- Publish on a transport connection, run alone from a state whose abort
channel is open, on a stream of the packets ps and then the error e. -/
theorem publish_solo (s : World) (j : Nat) (conn : srtConn) (ps : List packet) (e : Err)
    (hj : s.pubs j = none) (harmed : s.pb.abort = false) :
    (exec s (.publish j (.srt conn) :: Publish.schedule j ps e)).pubs j
        = some ⟨.srt conn, .returned (some e), ps.map .ok ++ [.err e]⟩ ∧
    (exec s (.publish j (.srt conn) :: Publish.schedule j ps e)).pb.abort = true := by
  have h0 : (step s (.publish j (.srt conn))).pubs j = some ⟨.srt conn, .reading, []⟩ := by
    simp [step, Publish.call, hj, Conn.asSrt, World.setPub]
  have h0a : (step s (.publish j (.srt conn))).pb.abort = false := by
    simp [step, Publish.call, hj, Conn.asSrt, World.setPub, harmed]
  obtain ⟨h1, h2⟩ := publish_loop j (.srt conn) ps _ _ h0
  rw [exec_cons, Publish.schedule, exec_append]
  rw [h0a] at h2
  simp only [List.nil_append] at h1
  generalize exec (step s (.publish j (.srt conn)))
    (ps.flatMap (fun p => [Action.pubRead j (.ok p), Action.pubOffer j])) = t at h1 h2
  have h3 : (step t (.pubRead j (.err e))).pubs j
      = some ⟨.srt conn, .closing e, ps.map .ok ++ [.err e]⟩ := by
    simp [step, Publish.read, h1, World.setPub]
  have h4 : (step t (.pubRead j (.err e))).pb.abort = false := by
    simp [step, Publish.read, h1, World.setPub, h2]
  rw [exec_cons, exec_cons, exec_nil]
  generalize step t (.pubRead j (.err e)) = u at h3 h4
  simp [step, Publish.close, h3, h4]

theorem subscribe_round (i : Nat) (s : World) (call : SubscribeCall)
    (hc : s.subs i = some call) (hpc : call.pc = .selecting) :
    ∃ call2, (exec s [.subRecv i, .subWrite i none]).subs i = some call2 ∧
      call2.pc = .selecting ∧
      (exec s [.subRecv i, .subWrite i none]).pb = s.pb := by
  simp only [exec, List.foldl, step]
  cases hch : s.chans i with
  | nil =>
    have h1 : Subscribe.recv s i = s := by
      simp [Subscribe.recv, hc, hpc, hch]
    rw [h1]
    have h2 : Subscribe.write s i none = s := by
      simp [Subscribe.write, hc, hpc]
    rw [h2]
    exact ⟨call, hc, hpc, rfl⟩
  | cons p rest =>
    refine ⟨{ call with pc := .selecting, writes := call.writes ++ [(p, none)] }, ?_, rfl, ?_⟩
    · simp [Subscribe.recv, hc, hpc, hch, Subscribe.write, World.setSub]
    · simp [Subscribe.recv, hc, hpc, hch, Subscribe.write, World.setSub]

theorem subscribe_rounds (i n : Nat) :
    ∀ (s : World) (call : SubscribeCall), s.subs i = some call → call.pc = .selecting →
    ∃ call2, (exec s (List.replicate n [Action.subRecv i, Action.subWrite i none]).flatten).subs i
        = some call2 ∧ call2.pc = .selecting ∧
      (exec s (List.replicate n [Action.subRecv i, Action.subWrite i none]).flatten).pb = s.pb := by
  induction n with
  | zero => intro s call hc hpc; exact ⟨call, by simpa [exec] using hc, hpc, by simp [exec]⟩
  | succ n ih =>
    intro s call hc hpc
    obtain ⟨c1, h1, h2, h3⟩ := subscribe_round i s call hc hpc
    obtain ⟨c2, h4, h5, h6⟩ := ih _ c1 h1 h2
    refine ⟨c2, ?_, h5, ?_⟩
    · rw [List.replicate_succ, List.flatten_cons, exec_append]; exact h4
    · rw [List.replicate_succ, List.flatten_cons, exec_append, h6, h3]

/-- A Subscribe call waiting in its select while the abort channel is closed
and the lock free returns EOF, however many queued packets its select takes
first, when the writes succeed. -/
theorem subscribe_drain (i n : Nat) (s : World) (call : SubscribeCall)
    (hc : s.subs i = some call) (hpc : call.pc = .selecting)
    (hab : s.pb.abort = true) (hl : s.pb.lock = false) :
    ((exec s (Subscribe.drain i n)).subs i).map (fun c => c.pc)
      = some (.returned (some .EOF)) := by
  obtain ⟨c2, h1, h2, h3⟩ := subscribe_rounds i n s call hc hpc
  rw [Subscribe.drain, exec_append]
  generalize exec s (List.replicate n [Action.subRecv i, Action.subWrite i none]).flatten = t
    at h1 h3
  have hab2 : t.pb.abort = true := by rw [h3]; exact hab
  have hl2 : t.pb.lock = false := by rw [h3]; exact hl
  simp [exec, step, Subscribe.onAbort, Subscribe.release, h1, h2, hab2, hl2, World.setSub]

theorem frame_pub_fan (s : World) (a : Action) (h : a.isPub = true) :
    (step s a).subs = s.subs ∧ (step s a).chans = s.chans ∧ (step s a).pump = s.pump ∧
      (step s a).fanned = s.fanned ∧ (step s a).pb.listeners = s.pb.listeners ∧
      (step s a).pb.lock = s.pb.lock ∧
      (Diag.targetFull ∈ (step s a).logs ↔ Diag.targetFull ∈ s.logs) := by
  cases a <;> simp [Action.isPub] at h <;> simp only [step]
  · (unfold Publish.call; repeat' split) <;> simp [World.setPub]
  · (unfold Publish.read; repeat' split) <;> simp [World.setPub]
  · (unfold Publish.offer; repeat' split) <;> simp
  · (unfold Publish.close; repeat' split) <;> simp

theorem frame_sub_ingest (s : World) (a : Action) (h : a.isSub = true) :
    (step s a).pubs = s.pubs ∧ (step s a).pb.incoming = s.pb.incoming ∧
      (step s a).pump = s.pump ∧ (step s a).fanned = s.fanned ∧ (step s a).logs = s.logs ∧
      (step s a).pb.lock = s.pb.lock := by
  cases a <;> simp [Action.isSub] at h <;> simp only [step]
  · (unfold Subscribe.call; repeat' split) <;> simp [World.setSub]
  · (unfold Subscribe.register; repeat' split) <;> simp
  · (unfold Subscribe.onAbort; repeat' split) <;> simp [World.setSub]
  · (unfold Subscribe.recv; repeat' split) <;> simp
  · (unfold Subscribe.write; repeat' split) <;> simp [World.setSub]
  · (unfold Subscribe.release; repeat' split) <;> simp

theorem Action.kinds (a : Action) : a.isPub = true ∨ a.isSub = true ∨ a.isPump = true := by
  cases a <;> simp [Action.isPub, Action.isSub, Action.isPump]

theorem seen_of_idle {pump : BroadcastPc} (hp : ∀ p todo, pump ≠ .ranging p todo)
    (fanned : List packet) (l : Nat) : pump.seen fanned l = fanned := by
  unfold BroadcastPc.seen
  split
  · rename_i p todo
    exact absurd rfl (hp p todo)
  · rfl

theorem Inv.idle {s : World} (hinv : Inv s) (hl : ¬ s.pb.lock = true) :
    ∀ p todo, s.pump ≠ .ranging p todo :=
  fun p todo hp => hl (hinv.lockPump.mpr ⟨p, todo, hp⟩)

/-- A step of the registered or returned Subscribe call that keeps joined and
what its channel was ever sent. -/
theorem DeliverOf.update_deliver {call call2 : SubscribeCall} {chan chan2 seen : List packet}
    (h : DeliverOf (some call) chan seen) (hpc : call.pc ≠ .registering)
    (hpc2 : call2.pc ≠ .registering) (hj : call2.joined = call.joined)
    (hr : call2.written ++ call2.inflight ++ chan2 = call.written ++ call.inflight ++ chan) :
    DeliverOf (some call2) chan2 seen := by
  unfold DeliverOf at h ⊢
  simp only [if_neg hpc, if_neg hpc2, receivedOf] at h ⊢
  rw [hj, hr]
  exact h

/-- A step of the Subscribe call i: the other channels stay as they are. -/
theorem Fan.of_sub_fan {s t : World} (h : Fan s) (i : Nat) (hp : t.pump = s.pump)
    (hf : t.fanned = s.fanned) (hs : ∀ k, k ≠ i → t.subs k = s.subs k)
    (hc : ∀ k, k ≠ i → t.chans k = s.chans k) (hi : t.Deliver i) : Fan t := by
  refine ⟨?_, ?_⟩
  · rw [hp, hf]; exact h.hand
  · intro k
    by_cases hk : k = i
    · subst hk; exact hi
    · have := h.deliver k
      unfold World.Deliver World.seen at this ⊢
      rw [hs k hk, hc k hk, hp, hf]
      exact this

theorem Fan.init_fan : Fan NewPubSub := by
  refine ⟨?_, ?_⟩
  · intro p todo h; simp [NewPubSub] at h
  · intro i; simp [World.Deliver, DeliverOf, NewPubSub]

theorem Fan.subscribe_call_fan {s : World} (h : Fan s) (i : Nat) (c : Conn) :
    Fan (Subscribe.call s i c) := by
  unfold Subscribe.call
  split
  · exact h
  · rename_i hnone
    have h0 := h.deliver i
    unfold World.Deliver DeliverOf at h0
    rw [hnone] at h0
    simp only at h0
    split
    · refine h.of_sub_fan i rfl rfl (fun k hk => by simp [World.setSub, Function.update_noteq hk])
        (fun k _ => rfl) ?_
      simp [World.Deliver, DeliverOf, World.setSub, receivedOf, SubscribeCall.written,
        SubscribeCall.inflight, h0]
    · split
      · refine h.of_sub_fan i rfl rfl
          (fun k hk => by simp [World.setSub, Function.update_noteq hk]) (fun k _ => rfl) ?_
        simp [World.Deliver, DeliverOf, World.setSub, receivedOf, SubscribeCall.written,
          SubscribeCall.inflight, h0]
      · refine h.of_sub_fan i rfl rfl
          (fun k hk => by simp [World.setSub, Function.update_noteq hk]) (fun k _ => rfl) ?_
        simp [World.Deliver, DeliverOf, World.setSub, h0]

theorem Fan.subscribe_register_fan {s : World} (h : Fan s) (hinv : Inv s) (i : Nat) :
    Fan (Subscribe.register s i) := by
  unfold Subscribe.register
  split
  · exact h
  · rename_i call hcall
    split
    · rename_i hpc
      split
      · exact h
      · rename_i hlock
        have h0 := h.deliver i
        unfold World.Deliver DeliverOf at h0
        rw [hcall] at h0
        simp only [hpc, if_true] at h0
        refine h.of_sub_fan i rfl rfl (fun k hk => by simp [Function.update_noteq hk])
          (fun k _ => rfl) ?_
        simp [World.Deliver, DeliverOf, World.seen, seen_of_idle (hinv.idle hlock), receivedOf,
          SubscribeCall.written, SubscribeCall.inflight, h0]
    · exact h

/-- A step of the registered Subscribe call i that changes neither the lock
nor the registry and keeps what the channel was ever sent. -/
theorem Fan.sub_update_fan {s t : World} (h : Fan s) (i : Nat) (call call2 : SubscribeCall)
    (hc : s.subs i = some call) (hpc : call.pc ≠ .registering)
    (hp : t.pump = s.pump) (hf : t.fanned = s.fanned)
    (hs : t.subs = Function.update s.subs i (some call2))
    (hch : ∀ k, k ≠ i → t.chans k = s.chans k)
    (hpc2 : call2.pc ≠ .registering) (hj : call2.joined = call.joined)
    (hr : call2.written ++ call2.inflight ++ t.chans i
      = call.written ++ call.inflight ++ s.chans i) : Fan t := by
  refine h.of_sub_fan i hp hf (fun k hk => by rw [hs, Function.update_noteq hk]) hch ?_
  have h0 := h.deliver i
  unfold World.Deliver World.seen at h0 ⊢
  rw [hc] at h0
  rw [hs, Function.update_same, hp, hf]
  exact h0.update_deliver hpc hpc2 hj hr

theorem Fan.subscribe_onAbort_fan {s : World} (h : Fan s) (i : Nat) :
    Fan (Subscribe.onAbort s i) := by
  unfold Subscribe.onAbort
  split
  · exact h
  · rename_i call hcall
    split
    · rename_i hpc
      split
      · exact h.sub_update_fan i call { call with pc := .unwinding (some .EOF) } hcall
          (by simp [hpc]) rfl rfl rfl (fun _ _ => rfl) (by simp) rfl
          (by simp [World.setSub, SubscribeCall.written, SubscribeCall.inflight, hpc])
      · exact h
    · exact h

theorem Fan.subscribe_recv_fan {s : World} (h : Fan s) (i : Nat) :
    Fan (Subscribe.recv s i) := by
  unfold Subscribe.recv
  split
  · exact h
  · rename_i call hcall
    split
    · rename_i hpc
      split
      · exact h
      · rename_i p rest hch
        exact h.sub_update_fan i call { call with pc := .writing p } hcall
          (by simp [hpc]) rfl rfl rfl (fun k hk => by simp [Function.update_noteq hk])
          (by simp) rfl
          (by simp [SubscribeCall.written, SubscribeCall.inflight, hpc, hch])
    · exact h

theorem Fan.subscribe_write_fan {s : World} (h : Fan s) (i : Nat) (res : Option Err) :
    Fan (Subscribe.write s i res) := by
  unfold Subscribe.write
  split
  · exact h
  · rename_i call hcall
    split
    · rename_i p hpc
      split
      · exact h.sub_update_fan i call
          { call with pc := .selecting, writes := call.writes ++ [(p, none)] } hcall
          (by simp [hpc]) rfl rfl rfl (fun _ _ => rfl) (by simp) rfl
          (by simp [World.setSub, SubscribeCall.written, SubscribeCall.inflight, hpc])
      · rename_i e
        exact h.sub_update_fan i call
          { call with pc := .unwinding (some e), writes := call.writes ++ [(p, some e)] } hcall
          (by simp [hpc]) rfl rfl rfl (fun _ _ => rfl) (by simp) rfl
          (by simp [World.setSub, SubscribeCall.written, SubscribeCall.inflight, hpc])
    · exact h

theorem Fan.subscribe_release_fan {s : World} (h : Fan s) (i : Nat) :
    Fan (Subscribe.release s i) := by
  unfold Subscribe.release
  split
  · exact h
  · rename_i call hcall
    split
    · rename_i ret hpc
      split
      · exact h
      · exact h.sub_update_fan i call { call with pc := .returned ret } hcall
          (by simp [hpc]) rfl rfl rfl (fun _ _ => rfl) (by simp) rfl
          (by simp [SubscribeCall.written, SubscribeCall.inflight, hpc])
    · exact h

theorem DeliverOf.grow_deliver {sub : Option SubscribeCall} {chan seen : List packet}
    (h : DeliverOf sub chan seen) (p : packet) : DeliverOf sub chan (seen ++ [p]) := by
  unfold DeliverOf at h ⊢
  split
  · simpa using h
  · rename_i call
    simp only at h
    split_ifs with hpc
    · simpa [hpc] using h
    · rw [if_neg hpc] at h
      refine ⟨by simp; omega, ?_⟩
      rw [List.drop_append_of_le_length h.1, List.map_append]
      exact h.2.trans (List.sublist_append_left _ _)

theorem DeliverOf.push_deliver {call : SubscribeCall} {chan seen : List packet}
    (h : DeliverOf (some call) chan seen) (hpc : call.pc ≠ .registering) (p : packet) :
    DeliverOf (some call) (chan ++ [p.Clone]) (seen ++ [p]) := by
  unfold DeliverOf at h ⊢
  simp only [if_neg hpc] at h ⊢
  refine ⟨by simp; omega, ?_⟩
  rw [List.drop_append_of_le_length h.1, List.map_append]
  have : receivedOf (some call) (chan ++ [p.Clone])
      = receivedOf (some call) chan ++ [p.Clone] := by
    simp [receivedOf]
  rw [this]
  exact h.2.append (List.Sublist.refl _)

theorem Inv.chan_key {s : World} (hinv : Inv s) {k1 k2 l : Nat}
    (h1 : (k1, l) ∈ s.pb.listeners) (h2 : (k2, l) ∈ s.pb.listeners) : k1 = k2 := by
  obtain ⟨c1, hc1, hk1, _⟩ := hinv.owner k1 l h1
  obtain ⟨c2, hc2, hk2, _⟩ := hinv.owner k2 l h2
  rw [hc1] at hc2
  cases hc2
  rw [← hk1, ← hk2]

theorem Inv.entries_nodup {s : World} (hinv : Inv s) : s.pb.listeners.Nodup :=
  List.Nodup.of_map _ hinv.keys

/-- While the for-range runs: the entries still to visit are distinct, and
each channel occurs in at most one of them. -/
theorem Inv.todo_erase {s : World} (hinv : Inv s) {p : packet} {todo : List (Nat × Nat)}
    (hp : s.pump = .ranging p todo) {k l : Nat} (hkl : (k, l) ∈ todo) (i : Nat) :
    i ∈ (todo.erase (k, l)).map Prod.snd ↔ i ≠ l ∧ i ∈ todo.map Prod.snd := by
  have hsub := hinv.todo p todo hp
  have hnd : todo.Nodup := hinv.entries_nodup.sublist hsub
  simp only [List.mem_map, hnd.mem_erase_iff]
  constructor
  · rintro ⟨e, ⟨hne, he⟩, rfl⟩
    refine ⟨?_, e, he, rfl⟩
    intro hl
    apply hne
    have := hinv.chan_key (hsub.subset he) (hl ▸ hsub.subset hkl)
    exact Prod.ext this hl
  · rintro ⟨hne, e, he, rfl⟩
    refine ⟨e, ⟨?_, he⟩, rfl⟩
    intro h
    apply hne
    rw [h]

theorem Fan.broadcast_onAbort_fan {s : World} (h : Fan s) : Fan (broadcast.onAbort s) := by
  unfold broadcast.onAbort
  split
  · rename_i hp
    split
    · refine ⟨(by intro p todo hp2; cases hp2), ?_⟩
      intro i
      have := h.deliver i
      unfold World.Deliver World.seen at this ⊢
      rw [hp] at this
      exact this
    · exact h
  · exact h

theorem Fan.broadcast_recv_fan {s : World} (h : Fan s) : Fan (broadcast.recv s) := by
  unfold broadcast.recv
  split
  · rename_i hp
    split
    · exact h
    · refine ⟨(by intro p todo hp2; cases hp2), ?_⟩
      intro i
      have := h.deliver i
      unfold World.Deliver World.seen at this ⊢
      rw [hp] at this
      exact this
  · exact h

theorem Fan.broadcast_unlock_fan {s : World} (h : Fan s) : Fan (broadcast.unlock s) := by
  unfold broadcast.unlock
  split
  · rename_i p hp
    refine ⟨(by intro p todo hp2; cases hp2), ?_⟩
    intro i
    have := h.deliver i
    unfold World.Deliver World.seen at this ⊢
    rw [hp] at this
    simpa [BroadcastPc.seen] using this
  · exact h

theorem Fan.broadcast_lock_fan {s : World} (h : Fan s) : Fan (broadcast.lock s) := by
  unfold broadcast.lock
  split
  · rename_i p hp
    split
    · exact h
    · refine ⟨(by intro p2 todo hp2; cases hp2; exact ⟨_, rfl⟩), ?_⟩
      intro i
      have := h.deliver i
      unfold World.Deliver World.seen at this ⊢
      rw [hp] at this
      simp only [BroadcastPc.seen] at this ⊢
      split_ifs
      · simpa using this
      · exact this.grow_deliver p
  · exact h

theorem Fan.broadcast_offer_fan {s : World} (h : Fan s) (hinv : Inv s) (k l : Nat) :
    Fan (broadcast.offer s k l) := by
  unfold broadcast.offer
  split
  · rename_i p todo hp
    obtain ⟨f, hf⟩ := h.hand p todo hp
    split
    · rename_i hkl
      have hmem := hinv.todo_erase hp hkl
      have hl : l ∈ todo.map Prod.snd := List.mem_map.mpr ⟨(k, l), hkl, rfl⟩
      obtain ⟨call, hcall, _, hreg⟩ := hinv.owner k l ((hinv.todo p todo hp).subset hkl)
      have hpc : call.pc ≠ .registering := by
        intro hc; rw [hc] at hreg; cases hreg
      have others : ∀ (t : World), t.subs = s.subs → t.fanned = s.fanned →
          t.pump = .ranging p (todo.erase (k, l)) → ∀ i, i ≠ l → t.chans i = s.chans i →
          t.Deliver i := by
        intro t hs hfan hpump i hil hch
        have := h.deliver i
        unfold World.Deliver World.seen at this ⊢
        rw [hp] at this
        rw [hs, hfan, hpump, hch]
        simp only [BroadcastPc.seen, hmem i, hil, ne_eq, not_false_eq_true, true_and] at this ⊢
        exact this
      have hdl := h.deliver l
      unfold World.Deliver World.seen at hdl
      rw [hp, hcall] at hdl
      simp only [BroadcastPc.seen, hl, if_true, hf, List.dropLast_concat] at hdl
      split
      · rename_i q hq
        obtain ⟨rfl, -⟩ := trySend_length hq
        refine ⟨(by intro p2 todo2 hp2; cases hp2; exact ⟨f, hf⟩), ?_⟩
        intro i
        by_cases hil : i = l
        · subst hil
          unfold World.Deliver World.seen
          simp only [BroadcastPc.seen, hmem i, ne_eq, not_true_eq_false, false_and, if_false,
            Function.update_same, hcall, hf]
          exact hdl.push_deliver hpc p
        · refine others _ ?_ ?_ ?_ i hil ?_ <;> first | rfl | simp [Function.update_noteq hil]
      · refine ⟨(by intro p2 todo2 hp2; cases hp2; exact ⟨f, hf⟩), ?_⟩
        intro i
        by_cases hil : i = l
        · subst hil
          unfold World.Deliver World.seen
          simp only [BroadcastPc.seen, hmem i, ne_eq, not_true_eq_false, false_and, if_false,
            hcall, hf]
          exact hdl.grow_deliver p
        · refine others _ ?_ ?_ ?_ i hil ?_ <;> rfl
    · exact h
  · exact h

theorem Fan.step_fan {s : World} (h : Fan s) (hinv : Inv s) (a : Action) : Fan (step s a) := by
  by_cases hp : a.isPub = true
  · obtain ⟨h1, h2, h3, h4, _⟩ := frame_pub_fan s a hp
    refine ⟨by rw [h3, h4]; exact h.hand, ?_⟩
    intro i
    have := h.deliver i
    unfold World.Deliver World.seen at this ⊢
    rw [h1, h2, h3, h4]
    exact this
  · cases a <;> simp [Action.isPub] at hp
    · exact h.subscribe_call_fan _ _
    · exact h.subscribe_register_fan hinv _
    · exact h.subscribe_onAbort_fan _
    · exact h.subscribe_recv_fan _
    · exact h.subscribe_write_fan _ _
    · exact h.subscribe_release_fan _
    · exact h.broadcast_onAbort_fan
    · exact h.broadcast_recv_fan
    · exact h.broadcast_lock_fan
    · exact h.broadcast_offer_fan hinv _ _
    · exact h.broadcast_unlock_fan

theorem Fan.exec_fan (acts : List Action) : Fan (exec NewPubSub acts) := by
  have := exec_induction (fun s => Inv s ∧ Fan s) acts NewPubSub ⟨Inv.init_inv, Fan.init_fan⟩
    (fun t a _ ht => ⟨ht.1.step_inv a, ht.2.step_fan ht.1 a⟩)
  exact this.2

theorem Ingest.init_ingest (j : Nat) : Ingest j NewPubSub := by
  constructor <;>
    simp [NewPubSub, World.pipeline, World.readPackets, readPacketsOf, pendingOf,
      BroadcastPc.holding]

theorem Ingest.of_frame {j : Nat} {s t : World} (h : Ingest j s) (hp : t.pubs = s.pubs)
    (hi : t.pb.incoming = s.pb.incoming) (hpump : t.pump = s.pump) (hf : t.fanned = s.fanned)
    (hl : t.logs = s.logs) : Ingest j t := by
  refine ⟨by rw [hp]; exact h.others, ?_, ?_⟩
  · unfold World.pipeline World.readPackets
    rw [hp, hi, hpump, hf]
    exact h.sub
  · unfold World.pipeline World.readPackets
    rw [hp, hi, hpump, hf, hl]
    exact h.all

/-- A mismatched Publish call does nothing after its entry. -/
theorem PubOk.mismatch_returned {s : World} (hok : PubOk s) {k : Nat} {call : PublishCall}
    (hc : s.pubs k = some call) (hm : call.c.asSrt = none) :
    call.pc = .returned (some .notSRT) := by
  have := hok k call hc
  unfold PublishCall.wf at this
  rw [hm] at this
  exact this.1

theorem Ingest.publish_call_ingest {j : Nat} {s : World} (h : Ingest j s) (k : Nat) (c : Conn)
    (hone : ∀ conn, c = .srt conn → k = j) : Ingest j (Publish.call s k c) := by
  unfold Publish.call
  split
  · exact h
  · rename_i hnone
    have key : ∀ call : PublishCall, call.c = c → call.reads = [] →
        (∀ p, call.pc ≠ .offering p) → Ingest j (s.setPub k call) := by
      intro call hcc hr hpc
      have hpend : pendingOf (Function.update s.pubs k (some call) j) = pendingOf (s.pubs j) := by
        by_cases hkj : j = k
        · subst hkj
          rw [Function.update_same, hnone]
          cases hp : call.pc with
          | offering p => exact absurd hp (hpc p)
          | _ => simp [pendingOf, hp]
        · rw [Function.update_noteq hkj]
      have hread : readPacketsOf (Function.update s.pubs k (some call) j)
          = readPacketsOf (s.pubs j) := by
        by_cases hkj : j = k
        · subst hkj
          rw [Function.update_same, hnone]
          simp [readPacketsOf, hr]
        · rw [Function.update_noteq hkj]
      refine ⟨?_, ?_, ?_⟩
      · intro k2 c2 hk2 hne
        by_cases hkk : k2 = k
        · subst hkk
          simp [World.setPub] at hk2
          subst hk2
          rw [hcc]
          cases c with
          | nil => rfl
          | srt conn => exact absurd (hone conn rfl) hne
          | other sid => rfl
        · simp [World.setPub, Function.update_noteq hkk] at hk2
          exact h.others k2 c2 hk2 hne
      · unfold World.pipeline World.readPackets
        simp only [World.setPub, hpend, hread]
        exact h.sub
      · unfold World.pipeline World.readPackets
        simp only [World.setPub, hpend, hread]
        exact h.all
    split
    · exact key _ rfl rfl (by simp)
    · exact key _ rfl rfl (by simp)

/-- A step that keeps the Publish calls and the pipeline. -/
theorem Ingest.of_pipeline {j : Nat} {s t : World} (h : Ingest j s) (hp : t.pubs = s.pubs)
    (hpipe : t.pipeline j = s.pipeline j)
    (hl : Diag.incomingFull ∈ s.logs → Diag.incomingFull ∈ t.logs) : Ingest j t := by
  refine ⟨by rw [hp]; exact h.others, ?_, ?_⟩
  · rw [hpipe]
    unfold World.readPackets
    rw [hp]
    exact h.sub
  · intro hn
    rw [hpipe]
    unfold World.readPackets
    rw [hp]
    exact h.all (fun hm => hn (hl hm))

/-- A step of the Publish call j itself. -/
theorem Ingest.of_own {j : Nat} {s t : World} (h : Ingest j s) (call2 : PublishCall)
    (hp : t.pubs = Function.update s.pubs j (some call2))
    (hsub : (t.pipeline j).Sublist (readPacketsOf (some call2)))
    (hall : Diag.incomingFull ∉ t.logs → t.pipeline j = readPacketsOf (some call2)) :
    Ingest j t := by
  refine ⟨?_, ?_, ?_⟩
  · intro k c0 hk hne
    rw [hp, Function.update_noteq hne] at hk
    exact h.others k c0 hk hne
  · unfold World.readPackets
    rw [hp, Function.update_same]
    exact hsub
  · unfold World.readPackets
    rw [hp, Function.update_same]
    exact hall

theorem Ingest.publish_read_ingest {j : Nat} {s : World} (h : Ingest j s) (hok : PubOk s)
    (k : Nat) (res : ReadResult) : Ingest j (Publish.read s k res) := by
  unfold Publish.read
  split
  · exact h
  · rename_i call hcall
    split
    · rename_i hpc
      have hkj : k = j := by
        by_contra hne
        have := hok.mismatch_returned hcall (h.others k call hcall hne)
        rw [hpc] at this
        cases this
      subst hkj
      have hs := h.sub
      have ha := h.all
      unfold World.pipeline World.readPackets at hs ha
      rw [hcall] at hs ha
      simp only [pendingOf, hpc, readPacketsOf, List.append_nil] at hs ha
      split
      · rename_i p
        refine h.of_own _ rfl ?_ ?_
        · simp only [World.pipeline, World.setPub, Function.update_same, pendingOf,
            readPacketsOf, List.filterMap_append]
          simpa [ReadResult.packet?] using hs.append (List.Sublist.refl [p])
        · intro hn
          simp only [World.pipeline, World.setPub, Function.update_same, pendingOf,
            readPacketsOf, List.filterMap_append]
          simp [ReadResult.packet?, ← ha hn]
      · rename_i e
        refine h.of_own _ rfl ?_ ?_
        · simp only [World.pipeline, World.setPub, Function.update_same, pendingOf,
            readPacketsOf, List.filterMap_append]
          simpa [ReadResult.packet?] using hs
        · intro hn
          simp only [World.pipeline, World.setPub, Function.update_same, pendingOf,
            readPacketsOf, List.filterMap_append]
          simp [ReadResult.packet?, ← ha hn]
    · exact h

theorem Ingest.publish_offer_ingest {j : Nat} {s : World} (h : Ingest j s) (hok : PubOk s)
    (k : Nat) : Ingest j (Publish.offer s k) := by
  unfold Publish.offer
  split
  · exact h
  · rename_i call hcall
    split
    · rename_i p hpc
      have hkj : k = j := by
        by_contra hne
        have := hok.mismatch_returned hcall (h.others k call hcall hne)
        rw [hpc] at this
        cases this
      subst hkj
      have hs := h.sub
      have ha := h.all
      unfold World.pipeline World.readPackets at hs ha
      rw [hcall] at hs ha
      simp only [pendingOf, hpc, readPacketsOf] at hs ha
      split
      · rename_i q hq
        obtain ⟨rfl, -⟩ := trySend_length hq
        refine h.of_own _ rfl ?_ ?_
        · simp only [World.pipeline, Function.update_same, pendingOf, readPacketsOf,
            List.append_nil]
          simpa [List.append_assoc] using hs
        · intro hn
          simp only [World.pipeline, Function.update_same, pendingOf, readPacketsOf,
            List.append_nil]
          simpa [List.append_assoc] using ha hn
      · refine h.of_own _ rfl ?_ ?_
        · simp only [World.pipeline, Function.update_same, pendingOf, readPacketsOf,
            List.append_nil]
          exact (List.sublist_append_left _ _).trans hs
        · intro hn
          simp at hn
    · exact h

theorem Ingest.publish_close_ingest {j : Nat} {s : World} (h : Ingest j s) (hok : PubOk s)
    (k : Nat) : Ingest j (Publish.close s k) := by
  unfold Publish.close
  split
  · exact h
  · rename_i call hcall
    split
    · rename_i e hpc
      have hkj : k = j := by
        by_contra hne
        have := hok.mismatch_returned hcall (h.others k call hcall hne)
        rw [hpc] at this
        cases this
      subst hkj
      have hs := h.sub
      have ha := h.all
      unfold World.pipeline World.readPackets at hs ha
      rw [hcall] at hs ha
      simp only [pendingOf, hpc, readPacketsOf] at hs ha
      split
      · refine h.of_own _ rfl ?_ ?_
        · simpa [World.pipeline, pendingOf, readPacketsOf] using hs
        · intro hn
          simpa [World.pipeline, pendingOf, readPacketsOf] using ha hn
      · refine h.of_own _ rfl ?_ ?_
        · simpa [World.pipeline, pendingOf, readPacketsOf] using hs
        · intro hn
          simpa [World.pipeline, pendingOf, readPacketsOf] using ha hn
    · exact h

theorem Ingest.broadcast_step {j : Nat} {s : World} (h : Ingest j s) (a : Action)
    (ha : a.isPump = true) : Ingest j (step s a) := by
  cases a <;> simp [Action.isPump] at ha <;> simp only [step]
  · unfold broadcast.onAbort
    split
    · rename_i hp
      split
      · exact h.of_pipeline rfl (by simp [World.pipeline, hp, BroadcastPc.holding])
          (by intro hm; simp [hm])
      · exact h
    · exact h
  · unfold broadcast.recv
    split
    · rename_i hp
      split
      · exact h
      · rename_i p rest hin
        exact h.of_pipeline rfl (by simp [World.pipeline, hp, hin, BroadcastPc.holding])
          (by intro hm; exact hm)
    · exact h
  · unfold broadcast.lock
    split
    · rename_i p hp
      split
      · exact h
      · exact h.of_pipeline rfl (by simp [World.pipeline, hp, BroadcastPc.holding])
          (by intro hm; exact hm)
    · exact h
  · unfold broadcast.offer
    split
    · rename_i p todo hp
      split
      · split
        · exact h.of_pipeline rfl (by simp [World.pipeline, hp, BroadcastPc.holding])
            (by intro hm; exact hm)
        · exact h.of_pipeline rfl (by simp [World.pipeline, hp, BroadcastPc.holding])
            (by intro hm; simp [hm])
      · exact h
    · exact h
  · unfold broadcast.unlock
    split
    · rename_i p hp
      exact h.of_pipeline rfl (by simp [World.pipeline, hp, BroadcastPc.holding])
        (by intro hm; exact hm)
    · exact h

theorem Ingest.step_ingest {j : Nat} {s : World} (h : Ingest j s) (hok : PubOk s) (a : Action)
    (hone : ∀ k conn, a = .publish k (.srt conn) → k = j) : Ingest j (step s a) := by
  rcases a.kinds with hp | hp | hp
  · cases a <;> simp [Action.isPub] at hp
    · rename_i k c
      exact h.publish_call_ingest k c (fun conn hc => hone k conn (by rw [hc]))
    · exact h.publish_read_ingest hok _ _
    · exact h.publish_offer_ingest hok _
    · exact h.publish_close_ingest hok _
  · obtain ⟨h1, h2, h3, h4, h5, _⟩ := frame_sub_ingest s a hp
    exact h.of_frame h1 h2 h3 h4 h5
  · exact h.broadcast_step a hp

/-- In a schedule whose Publish calls on a transport connection all carry the
number j, the ingest invariant holds at the end. -/
theorem Ingest.exec_ingest (j : Nat) (acts : List Action)
    (hone : ∀ a ∈ acts, ∀ k conn, a = Action.publish k (.srt conn) → k = j) :
    Ingest j (exec NewPubSub acts) := by
  have := exec_induction (fun s => PubOk s ∧ Ingest j s) acts NewPubSub
    ⟨PubOk.init_pubOk, Ingest.init_ingest j⟩
    (fun t a ha ht => ⟨ht.1.step_pubOk a, ht.2.step_ingest ht.1 a (hone a ha)⟩)
  exact this.2

theorem mem_chans_mapSet {m : List (Nat × Nat)} {sid i k : Nat}
    (h : k ∈ (mapSet m sid i).map Prod.snd) : k = i ∨ k ∈ m.map Prod.snd := by
  obtain ⟨e, he, rfl⟩ := List.mem_map.mp h
  rcases (mem_mapSet m sid i e.1 e.2).mp he with ⟨_, h2⟩ | ⟨_, h2⟩
  · exact Or.inl h2
  · exact Or.inr (List.mem_map.mpr ⟨e, h2, rfl⟩)

theorem mem_chans_mapDelete {m : List (Nat × Nat)} {sid k : Nat}
    (h : k ∈ (mapDelete m sid).map Prod.snd) : k ∈ m.map Prod.snd := by
  obtain ⟨e, he, rfl⟩ := List.mem_map.mp h
  exact List.mem_map.mpr ⟨e, ((mem_mapDelete m sid e.1 e.2).mp he).2, rfl⟩

theorem seen_prefix_fanned (pump : BroadcastPc) (fanned : List packet) (l : Nat) :
    pump.seen fanned l <+: fanned := by
  unfold BroadcastPc.seen
  split
  · split_ifs
    · exact List.dropLast_prefix _
    · exact List.prefix_refl _
  · exact List.prefix_refl _

theorem written_prefix_received (call : SubscribeCall) (chan : List packet) :
    call.written <+: receivedOf (some call) chan := by
  unfold receivedOf
  simp only [List.append_assoc]
  exact List.prefix_append _ _

theorem mem_chans_erase {todo : List (Nat × Nat)} (hnd : (todo.map Prod.snd).Nodup)
    {e : Nat × Nat} (he : e ∈ todo) (l : Nat) :
    l ∈ (todo.erase e).map Prod.snd ↔ l ≠ e.2 ∧ l ∈ todo.map Prod.snd := by
  have hnd2 : todo.Nodup := List.Nodup.of_map _ hnd
  have hinj := List.inj_on_of_nodup_map hnd
  simp only [List.mem_map, hnd2.mem_erase_iff]
  constructor
  · rintro ⟨x, ⟨hne, hx⟩, rfl⟩
    exact ⟨fun h => hne (hinj hx he h), x, hx, rfl⟩
  · rintro ⟨hne, x, hx, rfl⟩
    exact ⟨x, ⟨fun h => hne (by rw [h]), hx⟩, rfl⟩

theorem perm_cons_erase_entry {todo : List (Nat × Nat)} {e : Nat × Nat} (he : e ∈ todo) :
    todo.Perm (e :: todo.erase e) := by
  induction todo with
  | nil => cases he
  | cons x xs ih =>
    rw [List.erase_cons]
    by_cases hx : x = e
    · subst hx
      simp
    · have hb : (x == e) = false := by simpa using hx
      rw [hb]
      have he2 : e ∈ xs := by
        rcases List.mem_cons.mp he with h | h
        · exact absurd h.symm hx
        · exact h
      exact ((ih he2).cons x).trans (List.Perm.swap e x _)

theorem broadcast_offer_eq (s : World) (p : packet) (todo : List (Nat × Nat)) (k l : Nat)
    (hp : s.pump = .ranging p todo) (hkl : (k, l) ∈ todo) :
    (step s (.pumpOffer k l)).pump = .ranging p (todo.erase (k, l)) ∧
    (step s (.pumpOffer k l)).pb = s.pb ∧
    (step s (.pumpOffer k l)).chans = Function.update s.chans l (offered (s.chans l) p) := by
  simp only [step, broadcast.offer, hp, hkl, if_true, offered, trySend]
  split
  · rename_i q hq
    split_ifs at hq with hlt
    cases hq
    simp [hlt]
  · rename_i hq
    split_ifs at hq with hlt
    simp [hlt]

theorem broadcast_offers (p : packet) (order : List (Nat × Nat)) :
    ∀ (todo : List (Nat × Nat)) (s : World), s.pump = .ranging p todo → order.Perm todo →
      (todo.map Prod.snd).Nodup →
      (exec s (order.map (fun e => Action.pumpOffer e.1 e.2))).pump = .ranging p [] ∧
      (exec s (order.map (fun e => Action.pumpOffer e.1 e.2))).pb = s.pb ∧
      ∀ l, (exec s (order.map (fun e => Action.pumpOffer e.1 e.2))).chans l
        = if l ∈ todo.map Prod.snd then offered (s.chans l) p else s.chans l := by
  induction order with
  | nil =>
    intro todo s hp hperm _
    have : todo = [] := List.Perm.eq_nil hperm.symm
    subst this
    simp [exec, hp]
  | cons e rest ih =>
    intro todo s hp hperm hnd
    have he : e ∈ todo := hperm.subset (List.mem_cons_self _ _)
    obtain ⟨h1, h2, h3⟩ := broadcast_offer_eq s p todo e.1 e.2 hp he
    have hperm2 : rest.Perm (todo.erase e) :=
      (hperm.trans (perm_cons_erase_entry he)).cons_inv
    have hnd2 : ((todo.erase e).map Prod.snd).Nodup :=
      ((List.erase_sublist e todo).map Prod.snd).nodup hnd
    obtain ⟨h4, h5, h6⟩ := ih (todo.erase e) _ h1 hperm2 hnd2
    simp only [List.map_cons, exec_cons]
    refine ⟨h4, h5.trans h2, ?_⟩
    intro l
    rw [h6 l, h3]
    have hm := mem_chans_erase hnd he l
    by_cases hl : l = e.2
    · subst hl
      have h7 : e.2 ∉ (todo.erase e).map Prod.snd := fun h => (hm.mp h).1 rfl
      have h8 : e.2 ∈ todo.map Prod.snd := List.mem_map.mpr ⟨e, he, rfl⟩
      rw [if_neg h7, if_pos h8, Function.update_same]
    · rw [Function.update_noteq hl]
      by_cases h9 : l ∈ todo.map Prod.snd
      · rw [if_pos (hm.mpr ⟨hl, h9⟩), if_pos h9]
      · rw [if_neg (fun h => h9 (hm.mp h).2), if_neg h9]

theorem detached_keep {s t : World} {i : Nat} (h : s.Detached i)
    (hs : t.subs i = s.subs i) (hc : t.chans i = s.chans i)
    (hr : i ∈ t.pb.listeners.map Prod.snd → i ∈ s.pb.listeners.map Prod.snd) :
    t.Detached i ∧ t.received i = s.received i := by
  refine ⟨⟨?_, fun hm => h.2 (hr hm)⟩, ?_⟩
  · rw [hs]; exact h.1
  · unfold World.received
    rw [hs, hc]

theorem detached_own {s t : World} {i : Nat} {call : SubscribeCall} (h : s.Detached i)
    (hcall : s.subs i = some call) (call2 : SubscribeCall) (hs : t.subs i = some call2)
    (hpc2 : call2.pc ≠ .registering)
    (hrec : call2.written ++ call2.inflight ++ t.chans i
      = call.written ++ call.inflight ++ s.chans i)
    (hr : i ∈ t.pb.listeners.map Prod.snd → i ∈ s.pb.listeners.map Prod.snd) :
    t.Detached i ∧ t.received i = s.received i := by
  refine ⟨⟨⟨call2, hs, hpc2⟩, fun hm => h.2 (hr hm)⟩, ?_⟩
  unfold World.received receivedOf
  rw [hs, hcall]
  exact hrec

theorem detached_step {s : World} (hinv : Inv s) {i : Nat} (h : s.Detached i) (a : Action) :
    (step s a).Detached i ∧ (step s a).received i = s.received i := by
  obtain ⟨⟨ci, hci, hpci⟩, hni⟩ := h
  have h : s.Detached i := ⟨⟨ci, hci, hpci⟩, hni⟩
  by_cases hp : a.isPub = true
  · obtain ⟨h1, h2, _, _, h5, _⟩ := frame_pub_fan s a hp
    exact detached_keep h (by rw [h1]) (by rw [h2]) (by rw [h5]; exact id)
  · cases a <;> simp [Action.isPub] at hp <;> simp only [step]
    · rename_i k c
      unfold Subscribe.call
      split
      · exact ⟨h, rfl⟩
      · rename_i hnone
        have hki : i ≠ k := by rintro rfl; rw [hnone] at hci; cases hci
        (repeat' split) <;>
          exact detached_keep h (by simp [World.setSub, Function.update_noteq hki]) rfl id
    · rename_i k
      unfold Subscribe.register
      split
      · exact ⟨h, rfl⟩
      · rename_i call hcall
        split
        · rename_i hpc
          split
          · exact ⟨h, rfl⟩
          · have hki : i ≠ k := by
              rintro rfl
              rw [hcall] at hci
              cases hci
              exact hpci hpc
            refine detached_keep h (by simp [Function.update_noteq hki]) rfl ?_
            intro hm
            rcases mem_chans_mapSet hm with h1 | h1
            · exact absurd h1 hki
            · exact h1
        · exact ⟨h, rfl⟩
    · rename_i k
      unfold Subscribe.onAbort
      split
      · exact ⟨h, rfl⟩
      · rename_i call hcall
        split
        · rename_i hpc
          split
          · by_cases hki : i = k
            · subst hki
              exact detached_own h hcall { call with pc := .unwinding (some .EOF) }
                (by simp [World.setSub]) (by simp)
                (by simp [World.setSub, SubscribeCall.written, SubscribeCall.inflight, hpc]) id
            · exact detached_keep h (by simp [World.setSub, Function.update_noteq hki]) rfl id
          · exact ⟨h, rfl⟩
        · exact ⟨h, rfl⟩
    · rename_i k
      unfold Subscribe.recv
      split
      · exact ⟨h, rfl⟩
      · rename_i call hcall
        split
        · rename_i hpc
          split
          · exact ⟨h, rfl⟩
          · rename_i p rest hch
            by_cases hki : i = k
            · subst hki
              exact detached_own h hcall { call with pc := .writing p } (by simp) (by simp)
                (by simp [SubscribeCall.written, SubscribeCall.inflight, hpc, hch]) id
            · exact detached_keep h (by simp [Function.update_noteq hki])
                (by simp [Function.update_noteq hki]) id
        · exact ⟨h, rfl⟩
    · rename_i k res
      unfold Subscribe.write
      split
      · exact ⟨h, rfl⟩
      · rename_i call hcall
        split
        · rename_i p hpc
          split
          · by_cases hki : i = k
            · subst hki
              exact detached_own h hcall
                { call with pc := .selecting, writes := call.writes ++ [(p, none)] }
                (by simp [World.setSub]) (by simp)
                (by simp [World.setSub, SubscribeCall.written, SubscribeCall.inflight, hpc]) id
            · exact detached_keep h (by simp [World.setSub, Function.update_noteq hki]) rfl id
          · rename_i e
            by_cases hki : i = k
            · subst hki
              exact detached_own h hcall
                { call with pc := .unwinding (some e), writes := call.writes ++ [(p, some e)] }
                (by simp [World.setSub]) (by simp)
                (by simp [World.setSub, SubscribeCall.written, SubscribeCall.inflight, hpc]) id
            · exact detached_keep h (by simp [World.setSub, Function.update_noteq hki]) rfl id
        · exact ⟨h, rfl⟩
    · rename_i k
      unfold Subscribe.release
      split
      · exact ⟨h, rfl⟩
      · rename_i call hcall
        split
        · rename_i ret hpc
          split
          · exact ⟨h, rfl⟩
          · by_cases hki : i = k
            · subst hki
              exact detached_own h hcall { call with pc := .returned ret } (by simp) (by simp)
                (by simp [SubscribeCall.written, SubscribeCall.inflight, hpc])
                mem_chans_mapDelete
            · exact detached_keep h (by simp [Function.update_noteq hki]) rfl
                mem_chans_mapDelete
        · exact ⟨h, rfl⟩
    · unfold broadcast.onAbort
      split
      · split
        · exact detached_keep h rfl rfl id
        · exact ⟨h, rfl⟩
      · exact ⟨h, rfl⟩
    · unfold broadcast.recv
      split
      · split
        · exact ⟨h, rfl⟩
        · exact detached_keep h rfl rfl id
      · exact ⟨h, rfl⟩
    · unfold broadcast.lock
      split
      · split
        · exact ⟨h, rfl⟩
        · exact detached_keep h rfl rfl id
      · exact ⟨h, rfl⟩
    · rename_i k l
      unfold broadcast.offer
      split
      · rename_i p todo hpump
        split
        · rename_i hkl
          have hli : i ≠ l := by
            rintro rfl
            exact hni (List.mem_map.mpr ⟨(k, i), (hinv.todo p todo hpump).subset hkl, rfl⟩)
          split
          · exact detached_keep h rfl (by simp [Function.update_noteq hli]) id
          · exact detached_keep h rfl rfl id
        · exact ⟨h, rfl⟩
      · exact ⟨h, rfl⟩
    · unfold broadcast.unlock
      split
      · exact detached_keep h rfl rfl id
      · exact ⟨h, rfl⟩

/-- Once a registered call's channel is out of the registry it stays out, and
nothing is ever appended to it again. -/
theorem detached_forever (acts : List Action) :
    ∀ (s : World) (i : Nat), Inv s → s.Detached i →
      (exec s acts).Detached i ∧ (exec s acts).received i = s.received i := by
  induction acts with
  | nil => intro s i _ h; exact ⟨h, rfl⟩
  | cons a rest ih =>
    intro s i hinv h
    obtain ⟨h1, h2⟩ := detached_step hinv h a
    obtain ⟨h3, h4⟩ := ih (step s a) i (hinv.step_inv a) h1
    exact ⟨h3, h4.trans h2⟩

/-- A Subscribe call keeps its argument and its socketId. -/
theorem subscribe_identity_step (s : World) (a : Action) (i : Nat) (call : SubscribeCall)
    (h : s.subs i = some call) :
    ∃ call2, (step s a).subs i = some call2 ∧ call2.socketId = call.socketId ∧
      (call.pc ≠ .registering → call2.pc ≠ .registering) := by
  by_cases hp : a.isSub = true
  · cases a with
    | subscribe k c =>
      simp only [step]
      unfold Subscribe.call
      by_cases hki : i = k
      · subst hki
        rw [h]
        exact ⟨call, h, rfl, id⟩
      · (repeat' split) <;>
          exact ⟨call, by simp [World.setSub, Function.update_noteq hki, h], rfl, id⟩
    | subRegister k =>
      simp only [step]
      unfold Subscribe.register
      by_cases hki : i = k
      · subst hki
        rw [h]
        (repeat' split) <;> simp_all
      · (repeat' split) <;> simp [Function.update_noteq hki, h]
    | subAbort k =>
      simp only [step]
      unfold Subscribe.onAbort
      by_cases hki : i = k
      · subst hki
        rw [h]
        (repeat' split) <;> simp_all [World.setSub]
      · (repeat' split) <;> simp [World.setSub, Function.update_noteq hki, h]
    | subRecv k =>
      simp only [step]
      unfold Subscribe.recv
      by_cases hki : i = k
      · subst hki
        rw [h]
        (repeat' split) <;> simp_all
      · (repeat' split) <;> simp [Function.update_noteq hki, h]
    | subWrite k res =>
      simp only [step]
      unfold Subscribe.write
      by_cases hki : i = k
      · subst hki
        rw [h]
        (repeat' split) <;> simp_all [World.setSub]
      · (repeat' split) <;> simp [World.setSub, Function.update_noteq hki, h]
    | subRelease k =>
      simp only [step]
      unfold Subscribe.release
      by_cases hki : i = k
      · subst hki
        rw [h]
        (repeat' split) <;> simp_all
      · (repeat' split) <;> simp [Function.update_noteq hki, h]
    | _ => simp [Action.isSub] at hp
  · rw [frame_nonsub s a (by simpa using hp)]
    exact ⟨call, h, rfl, id⟩

theorem subscribe_identity (acts : List Action) :
    ∀ (s : World) (i : Nat) (call : SubscribeCall), s.subs i = some call →
      ∃ call2, (exec s acts).subs i = some call2 ∧ call2.socketId = call.socketId ∧
        (call.pc ≠ .registering → call2.pc ≠ .registering) := by
  induction acts with
  | nil => intro s i call h; exact ⟨call, h, rfl, id⟩
  | cons a rest ih =>
    intro s i call h
    obtain ⟨c1, h1, h2, h3⟩ := subscribe_identity_step s a i call h
    obtain ⟨c2, h4, h5, h6⟩ := ih (step s a) i c1 h1
    exact ⟨c2, h4, h5.trans h2, fun hn => h6 (h3 hn)⟩



/-! ## The claims -/

/-- A connection that is not the transport variant and is not the nil
interface value: Publish and Subscribe return the type-mismatch error at once
(no ReadPacket, no WritePacket, no loop), and the instance is untouched: same
registry, same incoming channel, same abort channel and lock, same subscriber
channels and the broadcast goroutine where it was. -/
theorem mismatch_returns_untouched (s : World) (j i k : Nat) (c : Conn)
    (hc : c.asSrt = none) (hk : c.SocketId = some k) (hj : s.pubs j = none)
    (hi : s.subs i = none) :
    ((step s (.publish j c)).pubs j = some ⟨c, .returned (some .notSRT), []⟩ ∧
      (step s (.publish j c)).pb = s.pb ∧ (step s (.publish j c)).chans = s.chans ∧
      (step s (.publish j c)).pump = s.pump ∧ (step s (.publish j c)).subs = s.subs) ∧
    ((step s (.subscribe i c)).subs i = some ⟨c, k, .returned (some .notSRT), [], 0⟩ ∧
      (step s (.subscribe i c)).pb = s.pb ∧ (step s (.subscribe i c)).chans = s.chans ∧
      (step s (.subscribe i c)).pump = s.pump ∧ (step s (.subscribe i c)).pubs = s.pubs) := by
  simp [step, Publish.call, Subscribe.call, hc, hk, hj, hi, World.setPub, World.setSub]

/-- C1, the code at the failing input: the nil interface value is a connection
value that is not the transport variant (its type assertion fails). Publish
returns the type-mismatch error on it, but Subscribe calls c.SocketId() before
the type assertion and panics: it does not return the error. The registry,
the incoming channel and the abort channel are untouched in both cases. -/
theorem subscribe_nil_panics :
    Conn.nil.asSrt = none ∧
    (step NewPubSub (.publish 0 .nil)).pubs 0
      = some ⟨.nil, .returned (some .notSRT), []⟩ ∧
    (step NewPubSub (.publish 0 .nil)).pb = NewPubSub.pb ∧
    (step NewPubSub (.subscribe 0 .nil)).subs 0 = some ⟨.nil, 0, .panicked, [], 0⟩ ∧
    (step NewPubSub (.subscribe 0 .nil)).pb = NewPubSub.pb := by
  decide

/-- C2, as stated, fails: Publish called with a connection that is not the
transport variant returns (the type-mismatch error) and the abort channel is
still open. -/
theorem publish_mismatch_leaves_latch_armed :
    (exec NewPubSub [.publish 0 (.other 7)]).pubs 0
        = some ⟨.other 7, .returned (some .notSRT), []⟩ ∧
      (exec NewPubSub [.publish 0 (.other 7)]).pb.abort = false := by
  decide

/-- C2, amended: in every execution, once a Publish call on a transport
connection has returned, the abort channel is closed, and every Subscribe call
waiting in its select can take the abort branch, which makes it return EOF. -/
theorem publish_returned_latch_fired (acts : List Action) (j : Nat) (call : PublishCall)
    (r : Option Err) (hcall : (exec NewPubSub acts).pubs j = some call)
    (hsrt : call.c.asSrt ≠ none) (hret : call.pc = .returned r) :
    (exec NewPubSub acts).pb.abort = true ∧
    ∀ i sc, (exec NewPubSub acts).subs i = some sc → sc.pc = .selecting →
      (step (exec NewPubSub acts) (.subAbort i)).subs i
        = some { sc with pc := .unwinding (some .EOF) } := by
  have hw := PubOk.init_pubOk.exec_pubOk acts j call hcall
  have hab : (exec NewPubSub acts).pb.abort = true := by
    unfold PublishCall.wf at hw
    split at hw
    · rename_i hc; exact absurd hc hsrt
    · rw [hret] at hw
      obtain ⟨_, _, _, _, h⟩ := hw
      exact h
  refine ⟨hab, ?_⟩
  intro i sc hsc hpc
  simp [step, Subscribe.onAbort, hsc, hpc, hab, World.setSub]

theorem publish_returned_latch_fired_witness :
    (exec NewPubSub [.publish 0 (.srt ⟨9⟩), .pubRead 0 (.err .EOF), .pubClose 0]).pb.abort
        = true ∧
    ∀ i sc,
      (exec NewPubSub [.publish 0 (.srt ⟨9⟩), .pubRead 0 (.err .EOF), .pubClose 0]).subs i
        = some sc → sc.pc = .selecting →
      (step (exec NewPubSub [.publish 0 (.srt ⟨9⟩), .pubRead 0 (.err .EOF), .pubClose 0])
        (.subAbort i)).subs i = some { sc with pc := .unwinding (some .EOF) } :=
  publish_returned_latch_fired [.publish 0 (.srt ⟨9⟩), .pubRead 0 (.err .EOF), .pubClose 0] 0
    ⟨.srt ⟨9⟩, .returned (some .EOF), [.err .EOF]⟩ (some .EOF) (by decide) (by decide) rfl

/-- C3, as stated, fails: a Publish call on a transport connection whose
ReadPacket yields one packet and then an error, made on an instance whose abort
channel an earlier Publish call has closed, reads twice and stops at the error,
but close(pb.abort) panics on the closed channel: the call does not return the
error. -/
theorem publish_on_fired_latch_panics :
    publishAfterClose.filter (Action.ofPublish 1)
      = Action.publish 1 (.srt ⟨8⟩) :: Publish.schedule 1 [⟨1, 0⟩] (.transport 3) ∧
    (exec NewPubSub (publishAfterClose.take 3)).pubs 0
      = some ⟨.srt ⟨9⟩, .returned (some .EOF), [.err .EOF]⟩ ∧
    (exec NewPubSub (publishAfterClose.take 3)).pb.abort = true ∧
    (exec NewPubSub publishAfterClose).pubs 1
      = some ⟨.srt ⟨8⟩, .panicked, [.ok ⟨1, 0⟩, .err (.transport 3)]⟩ ∧
    (exec NewPubSub publishAfterClose).pubs 1
      ≠ some ⟨.srt ⟨8⟩, .returned (some (.transport 3)),
          [.ok ⟨1, 0⟩, .err (.transport 3)]⟩ := by
  decide

/-- C3, amended: a Publish call on a transport connection whose ReadPacket
yields the packets ps and then the error e, started on an instance whose abort
channel is open, in any schedule in which no other call closes that channel: it
reads ps.length + 1 times, stops at the error and returns exactly e (never nil),
whatever the other goroutines do and whether or not the incoming channel was
full when a packet was offered. -/
theorem publish_returns_first_error (s : World) (acts : List Action) (j : Nat)
    (conn : srtConn) (ps : List packet) (e : Err)
    (hj : s.pubs j = none) (harmed : s.pb.abort = false)
    (hown : acts.filter (Action.ofPublish j)
      = Action.publish j (.srt conn) :: Publish.schedule j ps e)
    (hcl : ∀ a ∈ acts, a.closesFor j = false) :
    (exec s acts).pubs j
        = some ⟨.srt conn, .returned (some e), ps.map .ok ++ [.err e]⟩ ∧
    ((exec s acts).pubs j).map (fun call => call.reads.length) = some (ps.length + 1) ∧
    (exec s acts).pb.abort = true := by
  obtain ⟨h1, h2⟩ := publish_local j acts s s rfl rfl hcl
  rw [hown] at h1 h2
  obtain ⟨h3, h4⟩ := publish_solo s j conn ps e hj harmed
  refine ⟨h1.trans h3, ?_, h2.trans h4⟩
  rw [h1.trans h3]
  simp

theorem publish_returns_first_error_witness :
    (exec NewPubSub [.publish 0 (.srt ⟨9⟩), .pubRead 0 (.ok ⟨1, 0⟩), .pumpRecv, .pubOffer 0,
        .pumpRecv, .pubRead 0 (.err (.transport 3)), .pumpLock, .pubClose 0]).pubs 0
        = some ⟨.srt ⟨9⟩, .returned (some (.transport 3)),
            [.ok ⟨1, 0⟩, .err (.transport 3)]⟩ ∧
    ((exec NewPubSub [.publish 0 (.srt ⟨9⟩), .pubRead 0 (.ok ⟨1, 0⟩), .pumpRecv, .pubOffer 0,
        .pumpRecv, .pubRead 0 (.err (.transport 3)), .pumpLock, .pubClose 0]).pubs 0).map
        (fun call => call.reads.length) = some 2 ∧
    (exec NewPubSub [.publish 0 (.srt ⟨9⟩), .pubRead 0 (.ok ⟨1, 0⟩), .pumpRecv, .pubOffer 0,
        .pumpRecv, .pubRead 0 (.err (.transport 3)), .pumpLock, .pubClose 0]).pb.abort = true :=
  publish_returns_first_error NewPubSub
    [.publish 0 (.srt ⟨9⟩), .pubRead 0 (.ok ⟨1, 0⟩), .pumpRecv, .pubOffer 0,
      .pumpRecv, .pubRead 0 (.err (.transport 3)), .pumpLock, .pubClose 0]
    0 ⟨9⟩ [⟨1, 0⟩] (.transport 3) rfl rfl (by decide) (by decide)

/-- C4: in every execution a Subscribe call on a transport connection returns
in two ways only: EOF, with the abort channel closed and every write so far
successful, or the error of its last WritePacket, the first that failed. It
never returns nil; a successful write puts it back in the select; without a
failed write the value returned is EOF; and once the abort channel is closed a
call waiting in the select does return EOF, however many queued packets it
takes and writes first. -/
theorem subscribe_returns_eof_or_write_error (acts : List Action) (i : Nat)
    (call : SubscribeCall) (hcall : (exec NewPubSub acts).subs i = some call)
    (hsrt : call.c.asSrt ≠ none) :
    (∀ r, call.pc = .returned r →
      (r = some .EOF ∧ (exec NewPubSub acts).pb.abort = true ∧ ∀ w ∈ call.writes, w.2 = none) ∨
      (∃ pre p e, call.writes = pre ++ [(p, some e)] ∧ (∀ w ∈ pre, w.2 = none) ∧ r = some e)) ∧
    (∀ r, call.pc = .returned r → r ≠ none) ∧
    (∀ p, call.pc = .writing p →
      ((step (exec NewPubSub acts) (.subWrite i none)).subs i).map (fun c => c.pc)
        = some .selecting) ∧
    (∀ r, call.pc = .returned r → (∀ w ∈ call.writes, w.2 = none) → r = some .EOF) ∧
    (call.pc = .selecting → (exec NewPubSub acts).pb.abort = true →
      (exec NewPubSub acts).pb.lock = false →
      ∀ n, ((exec (exec NewPubSub acts) (Subscribe.drain i n)).subs i).map (fun c => c.pc)
        = some (.returned (some .EOF))) := by
  have hw := SubOk.init_subOk.exec_subOk acts i call hcall
  have hout : ∀ r, call.pc = .returned r →
      Subscribe.Outcome (exec NewPubSub acts).pb.abort call.writes r := by
    intro r hr
    unfold SubscribeCall.wf at hw
    have h2 := hw.2
    split at h2
    · rename_i hc; exact absurd hc hsrt
    · rw [hr] at h2; exact h2
  refine ⟨hout, ?_, ?_, ?_, ?_⟩
  · intro r hr
    rcases hout r hr with ⟨h, _⟩ | ⟨_, _, e, _, _, h⟩ <;> simp [h]
  · intro p hp
    simp [step, Subscribe.write, hcall, hp, World.setSub]
  · intro r hr hall
    rcases hout r hr with ⟨h, _⟩ | ⟨pre, p, e, hwr, _, _⟩
    · exact h
    · have := hall (p, some e) (by rw [hwr]; simp)
      cases this
  · intro hp hab hl n
    exact subscribe_drain i n _ call hcall hp hab hl

theorem subscribe_returns_eof_or_write_error_witness :
    ((exec NewPubSub writeFails).subs 0
        = some ⟨.srt ⟨5⟩, 5, .returned (some (.transport 4)),
            [(⟨1, 1⟩, some (.transport 4))], 0⟩ ∧
      (Conn.srt ⟨5⟩).asSrt ≠ none) ∧
    ((∀ r, SubscribePc.returned (some (Err.transport 4)) = .returned r →
      (r = some .EOF ∧ (exec NewPubSub writeFails).pb.abort = true ∧
        ∀ w ∈ [((⟨1, 1⟩ : packet), some (Err.transport 4))], w.2 = none) ∨
      (∃ pre p e, [((⟨1, 1⟩ : packet), some (Err.transport 4))] = pre ++ [(p, some e)] ∧
        (∀ w ∈ pre, w.2 = none) ∧ r = some e)) ∧
    (∀ r, SubscribePc.returned (some (Err.transport 4)) = .returned r → r ≠ none)) :=
  ⟨⟨by decide, by decide⟩,
    (subscribe_returns_eof_or_write_error writeFails 0
      ⟨.srt ⟨5⟩, 5, .returned (some (.transport 4)), [(⟨1, 1⟩, some (.transport 4))], 0⟩
      (by decide) (by decide)).1,
    (subscribe_returns_eof_or_write_error writeFails 0
      ⟨.srt ⟨5⟩, 5, .returned (some (.transport 4)), [(⟨1, 1⟩, some (.transport 4))], 0⟩
      (by decide) (by decide)).2.1⟩

/-- C5: in every reachable state every registry entry (socketId, l) belongs
to the Subscribe call that made the channel l, that call has the socketId as
its own and has not returned; so when every Subscribe call has returned the
registry is empty. -/
theorem registry_entries_owned_by_active_calls (acts : List Action) :
    (∀ k l, (k, l) ∈ (exec NewPubSub acts).pb.listeners →
      ∃ call, (exec NewPubSub acts).subs l = some call ∧ call.socketId = k ∧
        ∀ r, call.pc ≠ .returned r) ∧
    ((∀ i call, (exec NewPubSub acts).subs i = some call → ∃ r, call.pc = .returned r) →
      (exec NewPubSub acts).pb.listeners = []) := by
  have hinv := Inv.init_inv.exec_inv acts
  have hown : ∀ k l, (k, l) ∈ (exec NewPubSub acts).pb.listeners →
      ∃ call, (exec NewPubSub acts).subs l = some call ∧ call.socketId = k ∧
        ∀ r, call.pc ≠ .returned r := by
    intro k l hkl
    obtain ⟨call, h1, h2, h3⟩ := hinv.owner k l hkl
    refine ⟨call, h1, h2, ?_⟩
    intro r hr
    rw [hr] at h3
    cases h3
  refine ⟨hown, ?_⟩
  intro hall
  cases hl : (exec NewPubSub acts).pb.listeners with
  | nil => rfl
  | cons e rest =>
    obtain ⟨call, h1, _, h3⟩ := hown e.1 e.2 (by rw [hl]; simp)
    obtain ⟨r, hr⟩ := hall _ call h1
    exact absurd hr (h3 r)

/-- C6: in every reachable state no channel holds more than 1024 packets, and
one fan-out of the broadcast loop on the packet p it holds, run in any
iteration order of the registry, leaves the registry unchanged, appends one
clone of p at the tail of every registered channel with fewer than 1024
packets, leaves every registered channel holding exactly 1024 packets
unchanged (what happens to a channel depends on that channel alone), leaves
the channels outside the registry unchanged, and again no channel exceeds 1024
packets. -/
theorem fanOut_appends_or_drops (s : World) (hs : Reachable s) :
    (∀ l, (s.chans l).length ≤ 1024) ∧
    ∀ (p : packet) (order : List (Nat × Nat)), s.pump = .locking p →
      order.Perm s.pb.listeners →
      (exec s (broadcast.fanOut order)).pb.listeners = s.pb.listeners ∧
      (exec s (broadcast.fanOut order)).pump = .selecting ∧
      (∀ l, l ∈ s.pb.listeners.map Prod.snd → (s.chans l).length < 1024 →
        (exec s (broadcast.fanOut order)).chans l = s.chans l ++ [p.Clone]) ∧
      (∀ l, l ∈ s.pb.listeners.map Prod.snd → (s.chans l).length = 1024 →
        (exec s (broadcast.fanOut order)).chans l = s.chans l) ∧
      (∀ l, l ∉ s.pb.listeners.map Prod.snd →
        (exec s (broadcast.fanOut order)).chans l = s.chans l) ∧
      (∀ l, ((exec s (broadcast.fanOut order)).chans l).length ≤ 1024) := by
  have hinv := Inv.reachable hs
  have hb := hinv.chanBound
  simp only [chanCap] at hb
  refine ⟨hb, ?_⟩
  intro p order hp horder
  have hlock : ¬ s.pb.lock = true := by
    intro hl
    obtain ⟨q, todo, hq⟩ := hinv.lockPump.mp hl
    rw [hp] at hq
    cases hq
  have hchan : (s.pb.listeners.map Prod.snd).Nodup := by
    refine List.Nodup.map_on ?_ hinv.entries_nodup
    intro x hx y hy hxy
    exact Prod.ext (hinv.chan_key hx (hxy ▸ hy)) hxy
  have h0 : (step s .pumpLock).pump = .ranging p s.pb.listeners ∧
      (step s .pumpLock).pb.listeners = s.pb.listeners ∧
      (step s .pumpLock).chans = s.chans := by
    simp [step, broadcast.lock, hp, hlock]
  obtain ⟨h1, h2, h3⟩ := broadcast_offers p order s.pb.listeners (step s .pumpLock) h0.1
    horder hchan
  have hfin : (exec s (broadcast.fanOut order)).pb.listeners = s.pb.listeners ∧
      (exec s (broadcast.fanOut order)).pump = .selecting ∧
      (exec s (broadcast.fanOut order)).chans
        = (exec (step s .pumpLock) (order.map (fun e => Action.pumpOffer e.1 e.2))).chans := by
    rw [broadcast.fanOut, List.cons_append, exec_cons, exec_append]
    generalize exec (step s .pumpLock) (order.map (fun e => Action.pumpOffer e.1 e.2)) = t
      at h1 h2
    have h4 : t.pb.listeners = s.pb.listeners := by rw [h2]; exact h0.2.1
    simp [exec, step, broadcast.unlock, h1, h4]
  have hch : ∀ l, (exec s (broadcast.fanOut order)).chans l
      = if l ∈ s.pb.listeners.map Prod.snd then offered (s.chans l) p else s.chans l := by
    intro l
    rw [hfin.2.2, h3 l, h0.2.2]
  refine ⟨hfin.1, hfin.2.1, ?_, ?_, ?_, ?_⟩
  · intro l hl hlt
    rw [hch l, if_pos hl, offered, chanCap, if_pos hlt]
  · intro l hl heq
    rw [hch l, if_pos hl, offered, chanCap, if_neg (by omega)]
  · intro l hl
    rw [hch l, if_neg hl]
  · intro l
    have := hb l
    rw [hch l]
    unfold offered chanCap
    split_ifs <;> simp <;> omega

theorem fanOut_appends_or_drops_witness :
    Reachable (exec NewPubSub (promptRun.take 6)) ∧
    (exec NewPubSub (promptRun.take 6)).pump = .locking ⟨1, 0⟩ ∧
    (exec NewPubSub (promptRun.take 6)).pb.listeners = [(5, 0)] ∧
    (exec (exec NewPubSub (promptRun.take 6)) (broadcast.fanOut [(5, 0)])).chans 0
      = [(packet.mk 1 0).Clone] :=
  ⟨⟨_, rfl⟩, by decide, by decide,
    by
      have h := ((fanOut_appends_or_drops (exec NewPubSub (promptRun.take 6)) ⟨_, rfl⟩).2
        ⟨1, 0⟩ [(5, 0)] (by decide) (by decide)).2.2.1 0 (by decide) (by decide)
      simpa using h⟩

/-- C8, as stated, fails: with two Publish calls on transport connections, the
second made after the first has returned, the subscriber writes the clones of
packets 1 and 2, while the first publisher's ReadPacket returned packet 1 only
and the second's packet 2 only: what was written is a subsequence of the
clones of neither publisher's packets. -/
theorem two_publishers_split_the_reads :
    (exec NewPubSub (twoPubsOneSub.take 7)).pubs 0
      = some ⟨.srt ⟨9⟩, .returned (some .EOF), [.ok ⟨1, 0⟩, .err .EOF]⟩ ∧
    (exec NewPubSub (twoPubsOneSub.take 7)).pubs 1 = none ∧
    ((exec NewPubSub twoPubsOneSub).subs 0).map SubscribeCall.written
      = some [⟨1, 1⟩, ⟨2, 1⟩] ∧
    (exec NewPubSub twoPubsOneSub).readPackets 0 = [⟨1, 0⟩] ∧
    (exec NewPubSub twoPubsOneSub).readPackets 1 = [⟨2, 0⟩] ∧
    ¬ [packet.mk 1 1, packet.mk 2 1].Sublist
        (((exec NewPubSub twoPubsOneSub).readPackets 0).map packet.Clone) ∧
    ¬ [packet.mk 1 1, packet.mk 2 1].Sublist
        (((exec NewPubSub twoPubsOneSub).readPackets 1).map packet.Clone) := by
  refine ⟨by decide, by decide, by decide, by decide, by decide, ?_, ?_⟩
  · intro h
    have h1 := h.length_le
    have h2 : (exec NewPubSub twoPubsOneSub).readPackets 0 = [⟨1, 0⟩] := by decide
    rw [h2] at h1
    simp at h1
  · intro h
    have h1 := h.length_le
    have h2 : (exec NewPubSub twoPubsOneSub).readPackets 1 = [⟨2, 0⟩] := by decide
    rw [h2] at h1
    simp at h1

/-- C8, amended: in every execution, the packets a Subscribe call passed to
WritePacket are, in order and without repetition, clones of a subsequence of
the packets the broadcast loop took under the lock after the call registered
(fanned without its first joined elements), so nothing fanned out before the
registration is replayed; and in every execution with at most one Publish call
on a transport connection (the call j), the packets taken by the broadcast loop
are a subsequence of the packets that publisher's ReadPacket returned, and so
what was written is a subsequence of their clones. -/
theorem written_is_subsequence_no_replay (acts : List Action) (i : Nat)
    (call : SubscribeCall)
    (hcall : (exec NewPubSub acts).subs i = some call) :
    call.written.Sublist
        ((((exec NewPubSub acts).fanned).drop call.joined).map packet.Clone) ∧
    ∀ j, (∀ a ∈ acts, ∀ k conn, a = Action.publish k (.srt conn) → k = j) →
      ((exec NewPubSub acts).fanned).Sublist ((exec NewPubSub acts).readPackets j) ∧
      call.written.Sublist (((exec NewPubSub acts).readPackets j).map packet.Clone) := by
  have hfan := Fan.exec_fan acts
  have h1 : call.written.Sublist
      ((((exec NewPubSub acts).fanned).drop call.joined).map packet.Clone) := by
    have hd := hfan.deliver i
    unfold World.Deliver DeliverOf at hd
    rw [hcall] at hd
    simp only at hd
    split_ifs at hd with hpc
    · simp [SubscribeCall.written, hd.2]
    · refine ((written_prefix_received call _).sublist.trans hd.2).trans ?_
      exact (((seen_prefix_fanned _ _ _).sublist).drop _).map _
  refine ⟨h1, ?_⟩
  intro j hone
  have hing := Ingest.exec_ingest j acts hone
  have hf : ((exec NewPubSub acts).fanned).Sublist ((exec NewPubSub acts).readPackets j) := by
    refine List.Sublist.trans ?_ hing.sub
    unfold World.pipeline
    simp only [List.append_assoc]
    exact List.sublist_append_left _ _
  exact ⟨hf, h1.trans (((List.drop_sublist _ _).trans hf).map _)⟩

theorem written_is_subsequence_no_replay_witness :
    (exec NewPubSub promptRun).subs 0
      = some ⟨.srt ⟨5⟩, 5, .returned (some .EOF), [(⟨1, 1⟩, none), (⟨2, 1⟩, none)], 0⟩ ∧
    [packet.mk 1 1, packet.mk 2 1].Sublist
        ((((exec NewPubSub promptRun).fanned).drop 0).map packet.Clone) ∧
    ((exec NewPubSub promptRun).fanned).Sublist ((exec NewPubSub promptRun).readPackets 0) ∧
    [packet.mk 1 1, packet.mk 2 1].Sublist
        (((exec NewPubSub promptRun).readPackets 0).map packet.Clone) :=
  ⟨by decide,
    (written_is_subsequence_no_replay promptRun 0
      ⟨.srt ⟨5⟩, 5, .returned (some .EOF), [(⟨1, 1⟩, none), (⟨2, 1⟩, none)], 0⟩
      (by decide)).1,
    (written_is_subsequence_no_replay promptRun 0
      ⟨.srt ⟨5⟩, 5, .returned (some .EOF), [(⟨1, 1⟩, none), (⟨2, 1⟩, none)], 0⟩
      (by decide)).2 0
      (by
        intro a ha k conn h
        subst h
        simp [promptRun] at ha
        exact ha.1)⟩

theorem twoPublishes_active (n j : Nat) (cj : PublishCall)
    (hj : (exec NewPubSub (twoPublishes.take n)).pubs j = some cj) (ha : cj.active = true) :
    j = if n ≤ 3 then 0 else 1 := by
  have hn : n = 0 ∨ n = 1 ∨ n = 2 ∨ n = 3 ∨ n = 4 ∨ n = 5 ∨ 6 ≤ n := by omega
  rcases hn with rfl | rfl | rfl | rfl | rfl | rfl | hn
  · simp [twoPublishes, exec, NewPubSub] at hj
  all_goals first
    | (have ht : twoPublishes.take n = twoPublishes := by
        apply List.take_of_length_le
        simpa [twoPublishes] using hn
       rw [ht] at hj)
    | skip
  all_goals
    simp [twoPublishes, exec, step, NewPubSub, Publish.call, Publish.read, Publish.close,
      World.setPub, Conn.asSrt, Function.update_apply] at hj
  all_goals first
    | (obtain ⟨rfl, -⟩ := hj
       simp)
    | (split_ifs at hj with h1 h2 <;> first
        | (simp at hj
           subst hj
           simp [PublishCall.active] at ha
           done)
        | (subst h1
           simp))

/-- C9, as stated, fails: two Publish calls on transport connections that do
not overlap (the second starts after the first has returned) close the abort
channel twice; the second close is on the closed channel and panics. -/
theorem sequential_publishes_fire_latch_twice :
    NoOverlap twoPublishes ∧ (exec NewPubSub twoPublishes).closes = 2 ∧
      (exec NewPubSub (twoPublishes.take 3)).pubs 0
        = some ⟨.srt ⟨9⟩, .returned (some .EOF), [.err .EOF]⟩ ∧
      (exec NewPubSub twoPublishes).pubs 1 = some ⟨.srt ⟨9⟩, .panicked, [.err .EOF]⟩ := by
  refine ⟨?_, by decide, by decide, by decide⟩
  intro n j k cj ck hj hk haj hak
  rw [twoPublishes_active n j cj hj haj, twoPublishes_active n k ck hk hak]

/-- C9, amended: in every execution in which at most one Publish call is made
on a transport connection (the one numbered j; calls on other connections
return before the close), close(pb.abort) is executed at most once and never on
a closed channel: no call panics. -/
theorem latch_fired_at_most_once (acts : List Action) (j : Nat)
    (hone : ∀ a ∈ acts, ∀ k conn, a = Action.publish k (.srt conn) → k = j) :
    (exec NewPubSub acts).closes ≤ 1 ∧
    ((exec NewPubSub acts).closes = 1 ↔ (exec NewPubSub acts).pb.abort = true) ∧
    ∀ k call, (exec NewPubSub acts).pubs k = some call → call.pc ≠ .panicked := by
  have h := Latch.exec_latch j acts hone
  refine ⟨?_, ?_, h.noPanic⟩
  · rw [h.count]; split <;> simp
  · rw [h.count]; split <;> simp_all

theorem latch_fired_at_most_once_witness :
    (exec NewPubSub (twoPublishes.take 3 ++ [.publish 1 (.other 4)])).closes ≤ 1 ∧
    ((exec NewPubSub (twoPublishes.take 3 ++ [.publish 1 (.other 4)])).closes = 1 ↔
      (exec NewPubSub (twoPublishes.take 3 ++ [.publish 1 (.other 4)])).pb.abort = true) ∧
    ∀ k call, (exec NewPubSub (twoPublishes.take 3 ++ [.publish 1 (.other 4)])).pubs k
      = some call → call.pc ≠ .panicked :=
  latch_fired_at_most_once (twoPublishes.take 3 ++ [.publish 1 (.other 4)]) 0
    (by
      intro a ha k conn h
      subst h
      simp [twoPublishes] at ha
      exact ha.1)

/-- C10: the deferred delete removes by socketId. Call a is registered under
sid and call b then registers under the same sid: the registry maps sid to the
channel of b only. When later call a runs its deferred function, the entry for
sid is gone although call b has not returned, the channel of b is in the
registry no more, and in every continuation it never is again and nothing is
ever appended to it. -/
theorem overwritten_subscriber_is_cut_off (acts mid : List Action) (a b sid : Nat)
    (cb ca2 cb2 : SubscribeCall) (r : Option Err)
    (hA : (sid, a) ∈ (exec NewPubSub acts).pb.listeners)
    (hB : (exec NewPubSub acts).subs b = some cb) (hBpc : cb.pc = .registering)
    (hBsid : cb.socketId = sid) (hl : (exec NewPubSub acts).pb.lock = false)
    (hA2 : (exec NewPubSub (acts ++ [.subRegister b] ++ mid)).subs a = some ca2)
    (hA2pc : ca2.pc = .unwinding r)
    (hl2 : (exec NewPubSub (acts ++ [.subRegister b] ++ mid)).pb.lock = false)
    (hB2 : (exec NewPubSub (acts ++ [.subRegister b] ++ mid)).subs b = some cb2) :
    (∀ l, (sid, l) ∈ (exec NewPubSub (acts ++ [.subRegister b])).pb.listeners ↔ l = b) ∧
    (∀ l, (sid, l) ∉
      (exec NewPubSub (acts ++ [.subRegister b] ++ mid ++ [.subRelease a])).pb.listeners) ∧
    (exec NewPubSub (acts ++ [.subRegister b] ++ mid ++ [.subRelease a])).subs b = some cb2 ∧
    ∀ rest,
      b ∉ (exec NewPubSub
        (acts ++ [.subRegister b] ++ mid ++ [.subRelease a] ++ rest)).pb.listeners.map Prod.snd ∧
      (exec NewPubSub (acts ++ [.subRegister b] ++ mid ++ [.subRelease a] ++ rest)).received b
        = (exec NewPubSub (acts ++ [.subRegister b] ++ mid ++ [.subRelease a])).received b := by
  have hinv := Inv.init_inv.exec_inv acts
  have hinv2 := Inv.init_inv.exec_inv (acts ++ [.subRegister b] ++ mid)
  have hinv3 := Inv.init_inv.exec_inv (acts ++ [.subRegister b] ++ mid ++ [.subRelease a])
  -- the registration of b
  have hreg : (exec NewPubSub (acts ++ [.subRegister b])).pb.listeners
        = mapSet (exec NewPubSub acts).pb.listeners sid b ∧
      (exec NewPubSub (acts ++ [.subRegister b])).subs
        = Function.update (exec NewPubSub acts).subs b
            (some { cb with pc := .selecting, joined := (exec NewPubSub acts).fanned.length }) := by
    rw [exec_append, exec_cons, exec_nil]
    generalize exec NewPubSub acts = s0 at hB hl
    simp [step, Subscribe.register, hB, hBpc, hl, hBsid]
  obtain ⟨ca, hca, hcasid, hcareg⟩ := hinv.owner sid a hA
  have hab : a ≠ b := by
    rintro rfl
    rw [hca] at hB
    cases hB
    rw [hBpc] at hcareg
    cases hcareg
  -- identities of a and b up to the release
  have ha1 : (exec NewPubSub (acts ++ [.subRegister b])).subs a = some ca := by
    rw [hreg.2, Function.update_noteq hab, hca]
  obtain ⟨ca2x, h1, h2, _⟩ := subscribe_identity mid _ a ca ha1
  rw [← exec_append, hA2] at h1
  cases h1
  have hb1 : (exec NewPubSub (acts ++ [.subRegister b])).subs b
      = some { cb with pc := .selecting, joined := (exec NewPubSub acts).fanned.length } := by
    rw [hreg.2, Function.update_same]
  obtain ⟨cb2x, h3, h4, h5⟩ := subscribe_identity mid _ b _ hb1
  rw [← exec_append, hB2] at h3
  cases h3
  simp only at h4
  have hb2pc : cb2.pc ≠ .registering := h5 (by simp)
  -- the release of a
  have hrel : (exec NewPubSub (acts ++ [.subRegister b] ++ mid ++ [.subRelease a])).pb.listeners
        = mapDelete (exec NewPubSub (acts ++ [.subRegister b] ++ mid)).pb.listeners sid ∧
      (exec NewPubSub (acts ++ [.subRegister b] ++ mid ++ [.subRelease a])).subs b = some cb2 := by
    rw [exec_append _ _ [.subRelease a], exec_cons, exec_nil]
    generalize exec NewPubSub (acts ++ [.subRegister b] ++ mid) = s2 at hA2 hl2 hB2
    simp [step, Subscribe.release, hA2, hA2pc, hl2, h2, hcasid, Function.update_noteq hab.symm,
      hB2]
  have hgone : ∀ l, (sid, l) ∉
      (exec NewPubSub (acts ++ [.subRegister b] ++ mid ++ [.subRelease a])).pb.listeners := by
    intro l hm
    rw [hrel.1] at hm
    exact ((mem_mapDelete _ _ _ _).mp hm).1 rfl
  have hdet : (exec NewPubSub (acts ++ [.subRegister b] ++ mid ++ [.subRelease a])).Detached b := by
    refine ⟨⟨cb2, hrel.2, hb2pc⟩, ?_⟩
    intro hm
    obtain ⟨e, he, heb⟩ := List.mem_map.mp hm
    obtain ⟨c0, hc0, hk, _⟩ := hinv3.owner e.1 e.2 he
    rw [heb, hrel.2] at hc0
    cases hc0
    apply hgone b
    have : e = (sid, b) := Prod.ext (by rw [← hk, h4, hBsid]) heb
    rw [← this]
    exact he
  refine ⟨?_, hgone, hrel.2, ?_⟩
  · intro l
    rw [hreg.1, mem_mapSet]
    constructor
    · rintro (⟨_, h⟩ | ⟨h, _⟩)
      · exact h
      · exact absurd rfl h
    · rintro rfl
      exact Or.inl ⟨rfl, rfl⟩
  · intro rest
    rw [exec_append _ _ rest]
    obtain ⟨h6, h7⟩ := detached_forever rest _ b hinv3 hdet
    exact ⟨h6.2, h7⟩

theorem overwritten_subscriber_is_cut_off_witness :
    (∀ l, (5, l) ∈ (exec NewPubSub (sharedSocketId ++ [.subRegister 1])).pb.listeners ↔ l = 1) ∧
    (∀ l, (5, l) ∉
      (exec NewPubSub (sharedSocketId ++ [.subRegister 1] ++
        [.subRecv 0, .subWrite 0 (some (.transport 4))] ++ [.subRelease 0])).pb.listeners) ∧
    (exec NewPubSub (sharedSocketId ++ [.subRegister 1] ++
        [.subRecv 0, .subWrite 0 (some (.transport 4))] ++ [.subRelease 0])).subs 1
      = some ⟨.srt ⟨5⟩, 5, .selecting, [], 1⟩ ∧
    ∀ rest,
      1 ∉ (exec NewPubSub (sharedSocketId ++ [.subRegister 1] ++
        [.subRecv 0, .subWrite 0 (some (.transport 4))] ++ [.subRelease 0] ++
        rest)).pb.listeners.map Prod.snd ∧
      (exec NewPubSub (sharedSocketId ++ [.subRegister 1] ++
        [.subRecv 0, .subWrite 0 (some (.transport 4))] ++ [.subRelease 0] ++ rest)).received 1
        = (exec NewPubSub (sharedSocketId ++ [.subRegister 1] ++
        [.subRecv 0, .subWrite 0 (some (.transport 4))] ++ [.subRelease 0])).received 1 :=
  overwritten_subscriber_is_cut_off sharedSocketId
    [.subRecv 0, .subWrite 0 (some (.transport 4))] 0 1 5
    ⟨.srt ⟨5⟩, 5, .registering, [], 0⟩
    ⟨.srt ⟨5⟩, 5, .unwinding (some (.transport 4)), [(⟨1, 1⟩, some (.transport 4))], 0⟩
    ⟨.srt ⟨5⟩, 5, .selecting, [], 1⟩ (some (.transport 4))
    (by decide) (by decide) rfl rfl (by decide) (by decide) rfl (by decide) (by decide)

end srt
